import Mathlib

/-!
Verification of the AG-UI event-stream relay logic of this repository.

Strings of the JavaScript/Python sources are modelled as `List Char`.
The JSON values exchanged on the wire are modelled by `JsonVal`; the
serializer `compactJson` models the single-line JSON serialization used
by the sources (`json.dumps` in `_format_sse`, the interpolated literals
in `route.ts`: fields separated by `", "`, keys and values by `": "`),
and `jsonParse` models `JSON.parse` / `json.loads` restricted to the
value shapes the protocol uses (integer numerals; no float syntax).
-/

/-- Whitespace test used by the JSON parser and by `trim`/`strip`. -/
def isWsChar (c : Char) : Bool :=
  c = ' ' || c = '\n' || c = '\t' || c = '\r'

/-- Models JavaScript `String.prototype.split(sep)` / Python `str.split(sep)`
for a one-character separator: `"a\n\nb".split('\n') = ["a","","b"]`. -/
def splitOnChar (sep : Char) : List Char → List (List Char)
  | [] => [[]]
  | c :: cs =>
    let r := splitOnChar sep cs
    if c = sep then [] :: r
    else
      match r with
      | [] => [[c]]
      | h :: t => (c :: h) :: t

/-- Models JavaScript `s.startsWith(pat)` / Python `s.startswith(pat)`. -/
def startsWithChars : List Char → List Char → Bool
  | [], _ => true
  | _ :: _, [] => false
  | p :: ps, c :: cs => p == c && startsWithChars ps cs

/-- Models JavaScript `String.prototype.trim()` / Python `str.strip()`
(restricted to the ASCII whitespace the streams contain). -/
def trimChars (l : List Char) : List Char :=
  ((l.dropWhile isWsChar).reverse.dropWhile isWsChar).reverse

/-- JSON value: the wire data model of the AG-UI events.  Numbers are
restricted to integers, which covers every numeral the sources emit. -/
inductive JsonVal where
  | null
  | bool (b : Bool)
  | num (n : Int)
  | str (s : List Char)
  | arr (elems : List JsonVal)
  | obj (fields : List (List Char × JsonVal))

/-- Decimal digit to character. -/
def digitChar : Nat → Char
  | 0 => '0' | 1 => '1' | 2 => '2' | 3 => '3' | 4 => '4'
  | 5 => '5' | 6 => '6' | 7 => '7' | 8 => '8' | _ => '9'

/-- Hexadecimal digit to character (lowercase, as `JSON.stringify` emits). -/
def hexDigitChar : Nat → Char
  | 0 => '0' | 1 => '1' | 2 => '2' | 3 => '3' | 4 => '4'
  | 5 => '5' | 6 => '6' | 7 => '7' | 8 => '8' | 9 => '9'
  | 10 => 'a' | 11 => 'b' | 12 => 'c' | 13 => 'd' | 14 => 'e' | _ => 'f'

/-- Decimal digits of a natural number, most significant first. -/
def natToChars (n : Nat) : List Char :=
  if _h : n < 10 then [digitChar n]
  else natToChars (n / 10) ++ [digitChar (n % 10)]
  termination_by n
  decreasing_by exact Nat.div_lt_self (by omega) (by omega)

/-- Decimal numeral of an integer. -/
def intToChars (i : Int) : List Char :=
  if i < 0 then '-' :: natToChars i.natAbs else natToChars i.natAbs

/-- JSON string escaping of one character: `"` and `\` get a backslash,
other control characters become `\u00XX`, everything else is verbatim. -/
def escapeChar (c : Char) : List Char :=
  if c = '"' then ['\\', '"']
  else if c = '\\' then ['\\', '\\']
  else if c.toNat < 32 then
    ['\\', 'u', '0', '0', hexDigitChar (c.toNat / 16), hexDigitChar (c.toNat % 16)]
  else [c]

/-- JSON string escaping of a whole string. -/
def escapeChars : List Char → List Char
  | [] => []
  | c :: cs => escapeChar c ++ escapeChars cs

mutual

/-- Single-line JSON serialization of a value, in the style the sources
emit: object fields joined by `", "`, key and value joined by `": "`
(the default separators of `json.dumps` in `_format_sse`, and the exact
layout of the interpolated frames of `route.ts`). -/
def compactJson : JsonVal → List Char
  | .null => 'n' :: ['u', 'l', 'l']
  | .bool true => 't' :: 'r' :: ['u', 'e']
  | .bool false => 'f' :: 'a' :: ['l', 's', 'e']
  | .num i => intToChars i
  | .str s => '"' :: escapeChars s ++ ['"']
  | .arr [] => ['[', ']']
  | .arr (x :: xs) => '[' :: compactJson x ++ arrTailJson xs
  | .obj [] => ['{', '}']
  | .obj (f :: fs) => '{' :: fieldJson f ++ objTailJson fs

/-- Remaining array elements, each preceded by `", "`, then `]`. -/
def arrTailJson : List JsonVal → List Char
  | [] => [']']
  | x :: xs => ',' :: ' ' :: compactJson x ++ arrTailJson xs

/-- One serialized object field `"key": value`. -/
def fieldJson : List Char × JsonVal → List Char
  | (k, v) => '"' :: escapeChars k ++ ['"', ':', ' '] ++ compactJson v

/-- Remaining object fields, each preceded by `", "`, then a brace. -/
def objTailJson : List (List Char × JsonVal) → List Char
  | [] => ['}']
  | f :: fs => ',' :: ' ' :: fieldJson f ++ objTailJson fs

end

/-- Value of a hexadecimal digit character, as `JSON.parse` reads `\uXXXX`. -/
def hexVal (c : Char) : Option Nat :=
  if 48 ≤ c.toNat ∧ c.toNat ≤ 57 then some (c.toNat - 48)
  else if 97 ≤ c.toNat ∧ c.toNat ≤ 102 then some (c.toNat - 87)
  else if 65 ≤ c.toNat ∧ c.toNat ≤ 70 then some (c.toNat - 55)
  else none

/-- Named escape sequences accepted by `JSON.parse` after a backslash. -/
def unescapeChar (c : Char) : Option Char :=
  if c = '"' then some '"'
  else if c = '\\' then some '\\'
  else if c = '/' then some '/'
  else if c = 'b' then some (Char.ofNat 8)
  else if c = 'f' then some (Char.ofNat 12)
  else if c = 'n' then some '\n'
  else if c = 'r' then some '\r'
  else if c = 't' then some '\t'
  else none

/-- Body of a JSON string after the opening quote: unescapes until the
closing quote, returning the decoded characters and the remaining input.
The fuel argument only bounds recursion; `fuel > input length` never
runs out. -/
def parseStringBody : Nat → List Char → Option (List Char × List Char)
  | 0, _ => none
  | _ + 1, [] => none
  | fuel + 1, c :: cs =>
    if c = '"' then some ([], cs)
    else if c = '\\' then
      match cs with
      | [] => none
      | e :: cs1 =>
        if e = 'u' then
          match cs1 with
          | h1 :: h2 :: h3 :: h4 :: cs2 =>
            match hexVal h1, hexVal h2, hexVal h3, hexVal h4 with
            | some a, some b, some d, some e4 =>
              (parseStringBody fuel cs2).map
                (fun r => (Char.ofNat (((a * 16 + b) * 16 + d) * 16 + e4) :: r.1, r.2))
            | _, _, _, _ => none
          | _ => none
        else
          match unescapeChar e with
          | some ch => (parseStringBody fuel cs1).map (fun r => (ch :: r.1, r.2))
          | none => none
    else (parseStringBody fuel cs).map (fun r => (c :: r.1, r.2))

/-- Decimal digit test. -/
def isDigitChar (c : Char) : Bool :=
  48 ≤ c.toNat && c.toNat ≤ 57

/-- Longest leading run of decimal digits, and the rest of the input. -/
def takeDigits : List Char → List Char × List Char
  | [] => ([], [])
  | c :: cs =>
    if isDigitChar c then
      let r := takeDigits cs
      (c :: r.1, r.2)
    else ([], c :: cs)

/-- Value of a string of decimal digits. -/
def digitsToNat (ds : List Char) : Nat :=
  ds.foldl (fun a c => a * 10 + (c.toNat - 48)) 0

/-- JSON numeral parser (integer numerals, as the protocol uses). -/
def parseNum : List Char → Option (JsonVal × List Char)
  | [] => none
  | c :: cs =>
    if c = '-' then
      match takeDigits cs with
      | ([], _) => none
      | (ds, r) => some (.num (-(digitsToNat ds : Int)), r)
    else
      match takeDigits (c :: cs) with
      | ([], _) => none
      | (ds, r) => some (.num ((digitsToNat ds : Int)), r)

/-- Skip leading JSON whitespace. -/
def skipWs : List Char → List Char
  | [] => []
  | c :: cs => if isWsChar c then skipWs cs else c :: cs

mutual

/-- Recursive-descent JSON value parser modelling `JSON.parse` /
`json.loads` on the value shapes of the protocol.  Returns the value and
the unconsumed input.  The fuel bounds the nesting/element recursion;
`jsonParse` supplies enough for any input. -/
def parseValue : Nat → List Char → Option (JsonVal × List Char)
  | 0, _ => none
  | fuel + 1, input =>
    match skipWs input with
    | [] => none
    | c :: cs =>
      if c = 'n' then
        if startsWithChars ['u', 'l', 'l'] cs then some (.null, cs.drop 3) else none
      else if c = 't' then
        if startsWithChars ['r', 'u', 'e'] cs then some (.bool true, cs.drop 3) else none
      else if c = 'f' then
        if startsWithChars ['a', 'l', 's', 'e'] cs then some (.bool false, cs.drop 4) else none
      else if c = '"' then
        (parseStringBody (cs.length + 1) cs).map (fun r => (.str r.1, r.2))
      else if c = '[' then
        match skipWs cs with
        | [] => none
        | c2 :: cs2 =>
          if c2 = ']' then some (.arr [], cs2)
          else (parseElems fuel (c2 :: cs2)).map (fun r => (.arr r.1, r.2))
      else if c = '{' then
        match skipWs cs with
        | [] => none
        | c2 :: cs2 =>
          if c2 = '}' then some (.obj [], cs2)
          else (parseFields fuel (c2 :: cs2)).map (fun r => (.obj r.1, r.2))
      else parseNum (c :: cs)

/-- One or more comma-separated array elements followed by `]`. -/
def parseElems : Nat → List Char → Option (List JsonVal × List Char)
  | 0, _ => none
  | fuel + 1, input =>
    match parseValue fuel input with
    | none => none
    | some (v, r) =>
      match skipWs r with
      | [] => none
      | c2 :: r2 =>
        if c2 = ',' then
          match parseElems fuel r2 with
          | some (vs, r3) => some (v :: vs, r3)
          | none => none
        else if c2 = ']' then some ([v], r2)
        else none

/-- One or more comma-separated `"key": value` fields followed by a brace. -/
def parseFields : Nat → List Char → Option (List (List Char × JsonVal) × List Char)
  | 0, _ => none
  | fuel + 1, input =>
    match skipWs input with
    | [] => none
    | c :: cs =>
      if c = '"' then
        match parseStringBody (cs.length + 1) cs with
        | none => none
        | some (k, r) =>
          match skipWs r with
          | [] => none
          | c2 :: r2 =>
            if c2 = ':' then
              match parseValue fuel r2 with
              | none => none
              | some (v, r3) =>
                match skipWs r3 with
                | [] => none
                | c3 :: r4 =>
                  if c3 = ',' then
                    match parseFields fuel r4 with
                    | some (fs, r5) => some ((k, v) :: fs, r5)
                    | none => none
                  else if c3 = '}' then some ([(k, v)], r4)
                  else none
            else none
      else none

end

/-- Models `JSON.parse` / `json.loads`: parse one JSON value and require
only whitespace after it; `none` models the thrown parse error. -/
def jsonParse (s : List Char) : Option JsonVal :=
  match parseValue (s.length + 1) s with
  | some (j, rest) => if skipWs rest = [] then some j else none
  | none => none

/-! ### Numeral roundtrip -/

/-- Whether the input begins with a decimal digit. -/
def headIsDigit : List Char → Bool
  | [] => false
  | c :: _ => isDigitChar c

/-! ### Serializer shape facts and parser fuel -/

/-- Fuel needed by the recursive-descent parser for one value. -/
def jweight : JsonVal → Nat
  | .null => 1
  | .bool _ => 1
  | .num _ => 1
  | .str _ => 1
  | .arr [] => 1
  | .arr (x :: xs) => 1 + jweight x + jweight (.arr xs)
  | .obj [] => 1
  | .obj ((_, v) :: fs) => 1 + jweight v + jweight (.obj fs)

/-! ### SSE framing and the chunked decoder -/

/-- The literal prefix `"data: "` marking SSE candidate payload lines. -/
def dataTag : List Char := ['d', 'a', 't', 'a', ':', ' ']

/-- SSE frame of one event: `data: <json>\n\n` (source `_format_sse`,
and the framing formula of spec section 4.2). -/
def formatSse (eventJson : JsonVal) : List Char :=
  dataTag ++ compactJson eventJson ++ ['\n', '\n']

/-- Per-line decode step of the SSE client (`sendMessage` in the
root-page client): only lines starting with `data: ` are candidates;
the text after the prefix is skipped when blank after trimming,
otherwise `JSON.parse` is attempted and a failure drops the line. -/
def decodeLine (line : List Char) : Option JsonVal :=
  if startsWithChars dataTag line then
    let jsonData := line.drop 6
    if trimChars jsonData = [] then none
    else jsonParse jsonData
  else none

/-- Per-chunk processing of `sendMessage`: split the chunk on `\n` and
decode each line in order. -/
def decodeChunk (chunk : List Char) : List JsonVal :=
  (splitOnChar '\n' chunk).filterMap decodeLine

/-- The whole read loop of `sendMessage`: decode the chunks in arrival
order, concatenating the events each chunk yields. -/
def decodeChunks (chunks : List (List Char)) : List JsonVal :=
  (chunks.map decodeChunk).flatten

/-- Line-sequence processing of the `sendMessage` decode loop: events
of the successfully decoded candidate lines, in order. -/
def decodeLines (lines : List (List Char)) : List JsonVal :=
  lines.filterMap decodeLine

/-- Candidate-payload extraction of the tutorial CLI client
(`_process_event_stream`): a line is a candidate only when it starts
with `data: `; one prefix is removed, plus one further duplicate prefix
when present (the double-prefix hardening), and never a third. -/
def sseCandidatePayload (lineStr : List Char) : Option (List Char) :=
  if startsWithChars dataTag lineStr then
    let jsonPart := lineStr.drop 6
    some (if startsWithChars dataTag jsonPart then jsonPart.drop 6 else jsonPart)
  else none

/-! ### The WebSocket chat client (part_004) -/

/-- One rendered chat message of the WebSocket React client. -/
structure ChatMessage where
  id : List Char
  role : List Char
  content : List Char
  isStreaming : Bool
deriving DecidableEq

/-- Client-side state of the WebSocket chat component: the rendered
message list, the streaming-content accumulator
(`currentStreamingMessageRef.current`), the typing flag, and the
connection flag. -/
structure ChatState where
  messages : List ChatMessage
  currentStreaming : List Char
  isTyping : Bool
  isConnected : Bool
deriving DecidableEq

/-- The role string `assistant`. -/
def assistantRole : List Char := ['a', 's', 's', 'i', 's', 't', 'a', 'n', 't']

/-- JavaScript `x || fallback` on an optional string field: absent and
empty strings are falsy. -/
def jsOr (v : Option (List Char)) (fallback : List Char) : List Char :=
  match v with
  | some m => if m = [] then fallback else m
  | none => fallback

/-- Incoming WebSocket events as `handleWebSocketMessage` reads the
parsed JSON: the `type` tag plus the optional fields the handler
accesses (`data.message_id`, `data.delta`). -/
inductive WsEvent where
  | runStarted
  | textMessageStart (messageId : Option (List Char))
  | textMessageContent (messageId : Option (List Char)) (delta : Option (List Char))
  | textMessageEnd
  | runFinished
  | errorEvent
  | unknown

/-- `handleWebSocketMessage` of the part_004 client.  `now` models the
`Date.now().toString()` fallback identifier. -/
def handleWebSocketMessage (now : List Char) (data : WsEvent) (s : ChatState) : ChatState :=
  match data with
  | .runStarted => { s with isTyping := true, currentStreaming := [] }
  | .textMessageStart mid =>
    { s with messages := s.messages ++
        [{ id := jsOr mid now, role := assistantRole, content := [], isStreaming := true }] }
  | .textMessageContent _ delta =>
    let d := jsOr delta []
    let cs := s.currentStreaming ++ d
    { s with currentStreaming := cs,
             messages := s.messages.map (fun m =>
               if m.isStreaming ∧ m.role = assistantRole then { m with content := cs }
               else m) }
  | .textMessageEnd =>
    { s with messages := s.messages.map (fun m =>
        if m.isStreaming ∧ m.role = assistantRole then { m with isStreaming := false }
        else m) }
  | .runFinished => { s with isTyping := false, currentStreaming := [] }
  | .errorEvent => { s with isTyping := false }
  | .unknown => s

/-- The `ws.onclose` handler of the part_004 client: marks the socket
disconnected and clears the typing flag; the message list and the
streaming accumulator are left untouched. -/
def handleWsClose (s : ChatState) : ChatState :=
  { s with isConnected := false, isTyping := false }

/-- Process a sequence of events through `handleWebSocketMessage`. -/
def applyWsEvents (now : List Char) (events : List WsEvent) (s : ChatState) : ChatState :=
  events.foldl (fun st e => handleWebSocketMessage now e st) s

/-! ### The JSON-Patch state reducer (part_006 client) -/

/-- Kind of JSON-Patch operation dispatched by `_handle_state_delta`. -/
inductive POpKind where
  | add
  | replace
deriving DecidableEq

/-- First-match association lookup (Python `dict` access / key test). -/
def lookupField (k : List Char) : List (List Char × JsonVal) → Option JsonVal
  | [] => none
  | (k2, v) :: fs => if k2 = k then some v else lookupField k fs

/-- Set a key on an object: overwrite the first occurrence, else append
(Python `dict` assignment; parsed objects carry unique keys). -/
def setField (k : List Char) (v : JsonVal) :
    List (List Char × JsonVal) → List (List Char × JsonVal)
  | [] => [(k, v)]
  | (k2, v2) :: fs => if k2 = k then (k, v) :: fs else (k2, v2) :: setField k v fs

/-- Delete a key from an object (first occurrence). -/
def removeField (k : List Char) :
    List (List Char × JsonVal) → List (List Char × JsonVal)
  | [] => []
  | (k2, v) :: fs => if k2 = k then fs else (k2, v) :: removeField k fs

/-- Python `str.replace('~1', '/')`: left-to-right, non-overlapping. -/
def replaceTilde1 : List Char → List Char
  | '~' :: '1' :: rest => '/' :: replaceTilde1 rest
  | c :: rest => c :: replaceTilde1 rest
  | [] => []

/-- Python `str.replace('~0', '~')`: left-to-right, non-overlapping. -/
def replaceTilde0 : List Char → List Char
  | '~' :: '0' :: rest => '~' :: replaceTilde0 rest
  | c :: rest => c :: replaceTilde0 rest
  | [] => []

/-- `_parse_json_pointer` of part_006: empty or root pointer gives no
parts; otherwise drop a leading slash, split on `/` and decode the
tilde escapes. -/
def parseJsonPointer (path : List Char) : List (List Char) :=
  if path = [] ∨ path = ['/'] then []
  else
    let parts :=
      if startsWithChars ['/'] path then splitOnChar '/' (path.drop 1)
      else splitOnChar '/' path
    parts.map (fun p => replaceTilde0 (replaceTilde1 p))

/-- Python `str.isdigit`: nonempty and all decimal digits. -/
def isDigitsStr (s : List Char) : Bool :=
  !s.isEmpty && s.all isDigitChar

/-- Python `list.insert(i, x)`: clamps the index to the list length. -/
def pyInsert (i : Nat) (v : JsonVal) (xs : List JsonVal) : List JsonVal :=
  xs.take i ++ [v] ++ xs.drop i

/-- Final dispatch of `_apply_json_patch_operation` at the parent of
the addressed location: `-` appends on an array parent; a digit key
indexes an array parent (insert for add, in-bounds overwrite for
replace, silently nothing otherwise); any key sets on an object
parent; any other parent shape is left unchanged. -/
def applyFinalKey (op : POpKind) (finalKey : List Char) (value : JsonVal)
    (current : JsonVal) : JsonVal :=
  match current with
  | .arr xs =>
    if finalKey = ['-'] then .arr (xs ++ [value])
    else if isDigitsStr finalKey then
      let index := digitsToNat finalKey
      match op with
      | .add => .arr (pyInsert index value xs)
      | .replace => if index < xs.length then .arr (xs.set index value) else .arr xs
    else .arr xs
  | .obj fs => .obj (setField finalKey value fs)
  | other => other

/-- `_apply_json_patch_operation` of part_006: with no parts, a dict
value replaces the whole state (anything else is ignored); otherwise
navigate to the parent, creating an empty object for a missing
intermediate key, and apply at the final key.  `none` models the
`TypeError` Python raises when navigation meets a non-dict value. -/
def applyJsonPatchOperation (op : POpKind) (pathParts : List (List Char))
    (value : JsonVal) (state : JsonVal) : Option JsonVal :=
  match pathParts with
  | [] =>
    match value with
    | .obj _ => some value
    | _ => some state
  | [finalKey] => some (applyFinalKey op finalKey value state)
  | part :: rest =>
    match state with
    | .obj fs =>
      let child := (lookupField part fs).getD (.obj [])
      match applyJsonPatchOperation op rest value child with
      | some child2 => some (.obj (setField part child2 fs))
      | none => none
    | _ => none

/-- Modelled from the spec: `_remove_json_patch_path` is called by
`_handle_state_delta` but its definition is missing from the source
files.  Spec section 4.5: `remove` deletes the array element at the
index (shifting left) or deletes the object key; removing a
non-existent target, or a missing intermediate, is a `PatchPathError`
(`none` here). -/
def removeJsonPatchPath : List (List Char) → JsonVal → Option JsonVal
  | [], _ => none
  | [finalKey], state =>
    match state with
    | .arr xs =>
      if isDigitsStr finalKey ∧ digitsToNat finalKey < xs.length then
        some (.arr (xs.eraseIdx (digitsToNat finalKey)))
      else none
    | .obj fs =>
      match lookupField finalKey fs with
      | some _ => some (.obj (removeField finalKey fs))
      | none => none
    | _ => none
  | part :: rest, state =>
    match state with
    | .obj fs =>
      match lookupField part fs with
      | some child =>
        match removeJsonPatchPath rest child with
        | some child2 => some (.obj (setField part child2 fs))
        | none => none
      | none => none
    | _ => none

/-- One operation of the `_handle_state_delta` loop: read `op`, `path`
and `value` from the operation object and dispatch.  `none` models an
uncaught Python exception (non-dict operation, non-string path, failed
navigation); unknown ops are skipped. -/
def applyOneOperation (operation : JsonVal) (state : JsonVal) : Option JsonVal :=
  match operation with
  | .obj fs =>
    let value := (lookupField ['v', 'a', 'l', 'u', 'e'] fs).getD .null
    match
      (match lookupField ['p', 'a', 't', 'h'] fs with
        | some (.str p) => some p
        | none => some []
        | some _ => none) with
    | none => none
    | some path =>
      let pathParts := parseJsonPointer path
      match lookupField ['o', 'p'] fs with
      | some (.str o) =>
        if o = ['r', 'e', 'p', 'l', 'a', 'c', 'e'] then
          applyJsonPatchOperation .replace pathParts value state
        else if o = ['a', 'd', 'd'] then
          applyJsonPatchOperation .add pathParts value state
        else if o = ['r', 'e', 'm', 'o', 'v', 'e'] then
          removeJsonPatchPath pathParts state
        else some state
      | _ => some state
  | _ => none

/-- The `_handle_state_delta` loop: apply the delta's operations in
order; an uncaught exception aborts the remaining operations. -/
def applyPatchOps : List JsonVal → JsonVal → Option JsonVal
  | [], state => some state
  | op1 :: ops, state =>
    match applyOneOperation op1 state with
    | some state2 => applyPatchOps ops state2
    | none => none

/-! ### WebSocketAgent run termination (ag-ui-websockets) -/

/-- Outcome of a `WebSocketAgent.run` observable. -/
inductive RunOutcome where
  | completed
  | errored
deriving DecidableEq

/-- Whether any frame of the stream parses to an event whose `type` is
a terminal `RUN_FINISHED` / `RUN_ERROR`. -/
def observedTerminalFrame (frames : List (List Char)) : Bool :=
  frames.any (fun f =>
    match jsonParse f with
    | some (.obj fs) =>
      match lookupField ['t', 'y', 'p', 'e'] fs with
      | some (.str t) =>
        t = ['R', 'U', 'N', '_', 'F', 'I', 'N', 'I', 'S', 'H', 'E', 'D'] ||
          t = ['R', 'U', 'N', '_', 'E', 'R', 'R', 'O', 'R']
      | _ => false
    | _ => false)

/-- `WebSocketAgent.run`: each message is parsed and forwarded to the
observer (a parse failure errors the observable); on close, the
observable errors for any close code other than 1000 and completes
otherwise — independently of which events were observed. -/
def wsAgentRunOutcome (frames : List (List Char)) (closeCode : Nat) : RunOutcome :=
  if frames.all (fun f => (jsonParse f).isSome) then
    (if closeCode = 1000 then .completed else .errored)
  else .errored

/-! ### The interpolated frames of handleDirectRequest (route.ts) -/

/-- Characters that need no JSON string escaping: not a quote, not a
backslash, not a control character. -/
def jsonSafeChar (c : Char) : Bool :=
  !(c == '"') && !(c == '\\') && !(c.toNat < 32)

/-- Template piece `"type": "RUN_STARTED", "thread_id": "`. -/
def runStartedPre : List Char :=
  ['"', 't', 'y', 'p', 'e', '"', ':', ' ', '"', 'R', 'U', 'N', '_', 'S', 'T', 'A', 'R', 'T',
    'E', 'D', '"', ',', ' ', '"', 't', 'h', 'r', 'e', 'a', 'd', '_', 'i', 'd', '"', ':', ' ',
    '"']

/-- Template piece `", "run_id": "`. -/
def runIdSep : List Char :=
  ['"', ',', ' ', '"', 'r', 'u', 'n', '_', 'i', 'd', '"', ':', ' ', '"']

/-- Template piece `"type": "TEXT_MESSAGE_START", "message_id": "`. -/
def tmStartPre : List Char :=
  ['"', 't', 'y', 'p', 'e', '"', ':', ' ', '"', 'T', 'E', 'X', 'T', '_', 'M', 'E', 'S', 'S',
    'A', 'G', 'E', '_', 'S', 'T', 'A', 'R', 'T', '"', ',', ' ', '"', 'm', 'e', 's', 's', 'a',
    'g', 'e', '_', 'i', 'd', '"', ':', ' ', '"']

/-- Template piece `", "role": "assistant"`. -/
def rolePart : List Char :=
  ['"', ',', ' ', '"', 'r', 'o', 'l', 'e', '"', ':', ' ', '"', 'a', 's', 's', 'i', 's', 't',
    'a', 'n', 't', '"']

/-- Template piece `"type": "TEXT_MESSAGE_CONTENT", "message_id": "`. -/
def tmcPre : List Char :=
  ['"', 't', 'y', 'p', 'e', '"', ':', ' ', '"', 'T', 'E', 'X', 'T', '_', 'M', 'E', 'S', 'S',
    'A', 'G', 'E', '_', 'C', 'O', 'N', 'T', 'E', 'N', 'T', '"', ',', ' ', '"', 'm', 'e', 's',
    's', 'a', 'g', 'e', '_', 'i', 'd', '"', ':', ' ', '"']

/-- Template piece `", "delta": "`. -/
def tmcDeltaSep : List Char :=
  ['"', ',', ' ', '"', 'd', 'e', 'l', 't', 'a', '"', ':', ' ', '"']

/-- Template piece `"type": "TEXT_MESSAGE_END", "message_id": "`. -/
def tmEndPre : List Char :=
  ['"', 't', 'y', 'p', 'e', '"', ':', ' ', '"', 'T', 'E', 'X', 'T', '_', 'M', 'E', 'S', 'S',
    'A', 'G', 'E', '_', 'E', 'N', 'D', '"', ',', ' ', '"', 'm', 'e', 's', 's', 'a', 'g', 'e',
    '_', 'i', 'd', '"', ':', ' ', '"']

/-- Template piece `"type": "RUN_FINISHED", "thread_id": "`. -/
def runFinishedPre : List Char :=
  ['"', 't', 'y', 'p', 'e', '"', ':', ' ', '"', 'R', 'U', 'N', '_', 'F', 'I', 'N', 'I', 'S',
    'H', 'E', 'D', '"', ',', ' ', '"', 't', 'h', 'r', 'e', 'a', 'd', '_', 'i', 'd', '"', ':',
    ' ', '"']

/-- RUN_STARTED frame of `handleDirectRequest`, by verbatim
interpolation of the thread and run ids. -/
def runStartedFrame (threadId runId : List Char) : List Char :=
  dataTag ++ '{' :: runStartedPre ++ threadId ++ runIdSep ++ runId ++
    ['"', '}'] ++ ['\n', '\n']

/-- TEXT_MESSAGE_START frame of `handleDirectRequest`. -/
def textMessageStartFrame (messageId : List Char) : List Char :=
  dataTag ++ '{' :: tmStartPre ++ messageId ++ rolePart ++ ['}'] ++ ['\n', '\n']

/-- Payload of one TEXT_MESSAGE_CONTENT frame: the message id and the
character are interpolated verbatim, no JSON escaping is applied. -/
def tmcPayload (messageId : List Char) (c : Char) : List Char :=
  '{' :: tmcPre ++ messageId ++ tmcDeltaSep ++ [c] ++ ['"', '}']

/-- One TEXT_MESSAGE_CONTENT frame. -/
def tmcFrame (messageId : List Char) (c : Char) : List Char :=
  dataTag ++ tmcPayload messageId c ++ ['\n', '\n']

/-- TEXT_MESSAGE_END frame of `handleDirectRequest`. -/
def textMessageEndFrame (messageId : List Char) : List Char :=
  dataTag ++ '{' :: tmEndPre ++ messageId ++ ['"', '}'] ++ ['\n', '\n']

/-- RUN_FINISHED frame of `handleDirectRequest`. -/
def runFinishedFrame (threadId runId : List Char) : List Char :=
  dataTag ++ '{' :: runFinishedPre ++ threadId ++ runIdSep ++ runId ++
    ['"', '}'] ++ ['\n', '\n']

/-- The full frame sequence `handleDirectRequest` enqueues: the run
start, one message start, one content frame per character of the
response text, one message end, and the run finish. -/
def handleDirectRequestFrames (responseText threadId runId messageId : List Char) :
    List (List Char) :=
  [runStartedFrame threadId runId, textMessageStartFrame messageId] ++
    responseText.map (tmcFrame messageId) ++
    [textMessageEndFrame messageId, runFinishedFrame threadId runId]

/-- The event value a TEXT_MESSAGE_CONTENT frame is meant to carry. -/
def contentEventJson (messageId : List Char) (c : Char) : JsonVal :=
  .obj [(['t', 'y', 'p', 'e'], .str ['T', 'E', 'X', 'T', '_', 'M', 'E', 'S', 'S', 'A', 'G', 'E', '_', 'C', 'O', 'N', 'T', 'E', 'N', 'T']),
        (['m', 'e', 's', 's', 'a', 'g', 'e', '_', 'i', 'd'], .str messageId),
        (['d', 'e', 'l', 't', 'a'], .str [c])]

/-! ### Character-level facts -/

theorem charOfNat_toNat (c : Char) : Char.ofNat c.toNat = c := by
  have hv : Nat.isValidChar c.toNat := c.valid
  unfold Char.ofNat
  rw [dif_pos hv]
  apply Char.ext
  simp only [Char.ofNatAux, Char.toNat, UInt32.ofNat']
  obtain ⟨⟨bv⟩, valid⟩ := c
  congr 1

theorem isWsChar_false_of_toNat (c : Char)
    (h : c.toNat ≠ 32 ∧ c.toNat ≠ 10 ∧ c.toNat ≠ 9 ∧ c.toNat ≠ 13) :
    isWsChar c = false := by
  cases hw : isWsChar c with
  | false => rfl
  | true =>
    have : c = ' ' ∨ c = '\n' ∨ c = '\t' ∨ c = '\r' := by
      simpa [isWsChar, or_assoc] using hw
    rcases this with h1 | h1 | h1 | h1 <;> (subst h1; revert h; decide)

theorem isDigitChar_bounds (c : Char) (h : isDigitChar c = true) :
    48 ≤ c.toNat ∧ c.toNat ≤ 57 := by
  simpa [isDigitChar] using h

theorem notWs_of_digit (c : Char) (h : isDigitChar c = true) : isWsChar c = false := by
  have := isDigitChar_bounds c h
  exact isWsChar_false_of_toNat c (by omega)

theorem digit_ne_specials (c : Char) (h : isDigitChar c = true) :
    c ≠ 'n' ∧ c ≠ 't' ∧ c ≠ 'f' ∧ c ≠ '"' ∧ c ≠ '[' ∧ c ≠ '{' ∧ c ≠ '-' ∧
      c ≠ ']' ∧ c ≠ '}' ∧ c ≠ ',' ∧ c ≠ '\n' := by
  refine ⟨?_, ?_, ?_, ?_, ?_, ?_, ?_, ?_, ?_, ?_, ?_⟩ <;>
    (intro he; subst he; revert h; decide)

theorem skipWs_cons_of_notWs {c : Char} (l : List Char) (h : isWsChar c = false) :
    skipWs (c :: l) = c :: l := by
  simp [skipWs, h]

theorem skipWs_cons_of_ws {c : Char} (l : List Char) (h : isWsChar c = true) :
    skipWs (c :: l) = skipWs l := by
  simp [skipWs, h]

theorem digitChar_toNat (d : Nat) (h : d < 10) : (digitChar d).toNat = 48 + d := by
  interval_cases d <;> decide

theorem isDigitChar_digitChar (d : Nat) (h : d < 10) :
    isDigitChar (digitChar d) = true := by
  interval_cases d <;> decide

theorem hexVal_hexDigitChar (d : Nat) (h : d < 16) :
    hexVal (hexDigitChar d) = some d := by
  interval_cases d <;> decide

theorem natToChars_digits (n : Nat) : ∀ c ∈ natToChars n, isDigitChar c = true := by
  induction n using Nat.strong_induction_on with
  | _ n ih =>
    unfold natToChars
    split
    · intro c hc
      simp only [List.mem_singleton] at hc
      subst hc
      exact isDigitChar_digitChar n (by omega)
    · intro c hc
      rcases List.mem_append.mp hc with h1 | h1
      · exact ih (n / 10) (Nat.div_lt_self (by omega) (by omega)) c h1
      · simp only [List.mem_singleton] at h1
        subst h1
        exact isDigitChar_digitChar (n % 10) (by omega)

theorem natToChars_ne_nil (n : Nat) : natToChars n ≠ [] := by
  unfold natToChars
  split
  · simp
  · simp

theorem digitsToNat_append_digit (l : List Char) (c : Char) :
    digitsToNat (l ++ [c]) = 10 * digitsToNat l + (c.toNat - 48) := by
  simp [digitsToNat, List.foldl_append]
  ring

theorem digitsToNat_natToChars (n : Nat) : digitsToNat (natToChars n) = n := by
  induction n using Nat.strong_induction_on with
  | _ n ih =>
    unfold natToChars
    split
    · rename_i h
      simp [digitsToNat, digitChar_toNat n h]
    · rename_i h
      rw [digitsToNat_append_digit, ih (n / 10) (Nat.div_lt_self (by omega) (by omega)),
        digitChar_toNat (n % 10) (by omega)]
      omega

theorem takeDigits_append (ds rest : List Char)
    (hd : ∀ c ∈ ds, isDigitChar c = true) (hr : headIsDigit rest = false) :
    takeDigits (ds ++ rest) = (ds, rest) := by
  induction ds with
  | nil =>
    cases rest with
    | nil => rfl
    | cons c t =>
      have : isDigitChar c = false := hr
      simp [takeDigits, this]
  | cons c t iht =>
    have hc : isDigitChar c = true := hd c (by simp)
    have := iht (fun x hx => hd x (by simp [hx]))
    simp [takeDigits, hc, this]

theorem natToChars_cons (n : Nat) : ∃ c t, natToChars n = c :: t := by
  cases h : natToChars n with
  | nil => exact absurd h (natToChars_ne_nil _)
  | cons c t => exact ⟨c, t, rfl⟩

theorem parseNum_cons_neg (cs : List Char) :
    parseNum ('-' :: cs) =
      match takeDigits cs with
      | ([], _) => none
      | (ds, r) => some (.num (-(digitsToNat ds : Int)), r) := by
  simp [parseNum]

theorem parseNum_cons_nonneg (c : Char) (cs : List Char) (h : c ≠ '-') :
    parseNum (c :: cs) =
      match takeDigits (c :: cs) with
      | ([], _) => none
      | (ds, r) => some (.num ((digitsToNat ds : Int)), r) := by
  simp [parseNum, h]

theorem parseNum_intToChars (i : Int) (rest : List Char)
    (hr : headIsDigit rest = false) :
    parseNum (intToChars i ++ rest) = some (.num i, rest) := by
  obtain ⟨c, t, hct⟩ := natToChars_cons i.natAbs
  have htake : takeDigits (natToChars i.natAbs ++ rest) = (natToChars i.natAbs, rest) :=
    takeDigits_append _ _ (natToChars_digits _) hr
  by_cases hneg : i < 0
  · have hi : intToChars i = '-' :: natToChars i.natAbs := by simp [intToChars, hneg]
    rw [hi, List.cons_append, parseNum_cons_neg, htake, hct]
    show some (JsonVal.num (-(digitsToNat (c :: t) : Int)), rest) = _
    rw [← hct, digitsToNat_natToChars]
    have : -(i.natAbs : Int) = i := by omega
    rw [this]
  · have hi : intToChars i = natToChars i.natAbs := by simp [intToChars, hneg]
    have hcd : isDigitChar c = true := natToChars_digits _ c (by rw [hct]; simp)
    have hcne : c ≠ '-' := (digit_ne_specials c hcd).2.2.2.2.2.2.1
    rw [hi, hct, List.cons_append, parseNum_cons_nonneg c _ hcne,
      show c :: (t ++ rest) = (c :: t) ++ rest from rfl, ← hct, htake, hct]
    show some (JsonVal.num ((digitsToNat (c :: t) : Int)), rest) = _
    rw [← hct, digitsToNat_natToChars]
    have : ((i.natAbs : Int)) = i := by omega
    rw [this]

/-! ### String-body roundtrip -/

theorem escapeChar_length_pos (c : Char) : 1 ≤ (escapeChar c).length := by
  unfold escapeChar
  split_ifs <;> simp

theorem escapeChars_length (s : List Char) : s.length ≤ (escapeChars s).length := by
  induction s with
  | nil => simp [escapeChars]
  | cons c t ih =>
    have := escapeChar_length_pos c
    simp only [escapeChars, List.length_append, List.length_cons]
    omega

theorem parseStringBody_quote (f : Nat) (cs : List Char) :
    parseStringBody (f + 1) ('"' :: cs) = some ([], cs) := by
  simp [parseStringBody]

theorem parseStringBody_plain (f : Nat) (c : Char) (cs : List Char)
    (h1 : c ≠ '"') (h2 : c ≠ '\\') :
    parseStringBody (f + 1) (c :: cs) =
      (parseStringBody f cs).map (fun r => (c :: r.1, r.2)) := by
  simp [parseStringBody, h1, h2]

theorem parseStringBody_named (f : Nat) (e ch : Char) (cs : List Char)
    (he : e ≠ 'u') (hu : unescapeChar e = some ch) :
    parseStringBody (f + 1) ('\\' :: e :: cs) =
      (parseStringBody f cs).map (fun r => (ch :: r.1, r.2)) := by
  simp [parseStringBody, he, hu]

theorem parseStringBody_hex (f : Nat) (h1 h2 h3 h4 : Char) (cs : List Char)
    (a b d e : Nat)
    (hv1 : hexVal h1 = some a) (hv2 : hexVal h2 = some b)
    (hv3 : hexVal h3 = some d) (hv4 : hexVal h4 = some e) :
    parseStringBody (f + 1) ('\\' :: 'u' :: h1 :: h2 :: h3 :: h4 :: cs) =
      (parseStringBody f cs).map
        (fun r => (Char.ofNat (((a * 16 + b) * 16 + d) * 16 + e) :: r.1, r.2)) := by
  simp [parseStringBody, hv1, hv2, hv3, hv4]

theorem parseStringBody_escape (s : List Char) :
    ∀ (rest : List Char) (fuel : Nat), s.length < fuel →
      parseStringBody fuel (escapeChars s ++ '"' :: rest) = some (s, rest) := by
  induction s with
  | nil =>
    intro rest fuel hf
    cases fuel with
    | zero => omega
    | succ f => simp [escapeChars, parseStringBody_quote]
  | cons c s ih =>
    intro rest fuel hf
    cases fuel with
    | zero => omega
    | succ f =>
      have hf' : s.length < f := by
        simp only [List.length_cons] at hf
        omega
      rw [show escapeChars (c :: s) = escapeChar c ++ escapeChars s from rfl]
      by_cases h1 : c = '"'
      · subst h1
        rw [show escapeChar '"' = ['\\', '"'] from by decide]
        simp only [List.cons_append, List.nil_append]
        rw [parseStringBody_named f '"' '"' _ (by decide) (by decide), ih rest f hf']
        rfl
      · by_cases h2 : c = '\\'
        · subst h2
          rw [show escapeChar '\\' = ['\\', '\\'] from by decide]
          simp only [List.cons_append, List.nil_append]
          rw [parseStringBody_named f '\\' '\\' _ (by decide) (by decide), ih rest f hf']
          rfl
        · by_cases h3 : c.toNat < 32
          · rw [show escapeChar c =
              ['\\', 'u', '0', '0', hexDigitChar (c.toNat / 16), hexDigitChar (c.toNat % 16)]
              from by simp [escapeChar, h1, h2, h3]]
            simp only [List.cons_append, List.nil_append]
            rw [parseStringBody_hex f _ _ _ _ _ 0 0 (c.toNat / 16) (c.toNat % 16)
              (by decide) (by decide)
              (hexVal_hexDigitChar _ (by omega)) (hexVal_hexDigitChar _ (by omega)),
              ih rest f hf']
            have harith : ((0 * 16 + 0) * 16 + c.toNat / 16) * 16 + c.toNat % 16 = c.toNat := by
              omega
            simp only [Option.map_some']
            rw [harith, charOfNat_toNat]
          · rw [show escapeChar c = [c] from by simp [escapeChar, h1, h2, h3]]
            simp only [List.cons_append, List.nil_append]
            rw [parseStringBody_plain f c _ h1 h2, ih rest f hf']
            rfl

theorem jweight_pos (j : JsonVal) : 1 ≤ jweight j := by
  cases j with
  | null => simp [jweight]
  | bool b => simp [jweight]
  | num i => simp [jweight]
  | str s => simp [jweight]
  | arr xs =>
    cases xs with
    | nil => simp [jweight]
    | cons x t => simp [jweight]; omega
  | obj fs =>
    cases fs with
    | nil => simp [jweight]
    | cons f t =>
      obtain ⟨k, v⟩ := f
      simp [jweight]; omega

theorem compactJson_head (j : JsonVal) :
    ∃ c t, compactJson j = c :: t ∧ isWsChar c = false ∧ c ≠ ']' ∧ c ≠ '}' := by
  cases j with
  | null =>
    exact ⟨'n', ['u', 'l', 'l'], by simp [compactJson], by decide, by decide, by decide⟩
  | bool b =>
    cases b with
    | true => exact ⟨'t', ['r', 'u', 'e'], by simp [compactJson], by decide, by decide, by decide⟩
    | false =>
      exact ⟨'f', ['a', 'l', 's', 'e'], by simp [compactJson], by decide, by decide, by decide⟩
  | num i =>
    by_cases hi : i < 0
    · exact ⟨'-', natToChars i.natAbs, by simp [compactJson, intToChars, hi],
        by decide, by decide, by decide⟩
    · obtain ⟨c, t, hct⟩ := natToChars_cons i.natAbs
      have hcd : isDigitChar c = true := natToChars_digits _ c (by rw [hct]; simp)
      have hne := digit_ne_specials c hcd
      exact ⟨c, t, by simp [compactJson, intToChars, hi, hct],
        notWs_of_digit c hcd, hne.2.2.2.2.2.2.2.1, hne.2.2.2.2.2.2.2.2.1⟩
  | str s =>
    exact ⟨'"', escapeChars s ++ ['"'], by simp [compactJson], by decide, by decide, by decide⟩
  | arr xs =>
    cases xs with
    | nil => exact ⟨'[', [']'], by simp [compactJson], by decide, by decide, by decide⟩
    | cons x t =>
      exact ⟨'[', compactJson x ++ arrTailJson t, by simp [compactJson],
        by decide, by decide, by decide⟩
  | obj fs =>
    cases fs with
    | nil => exact ⟨'{', ['}'], by simp [compactJson], by decide, by decide, by decide⟩
    | cons f t =>
      exact ⟨'{', fieldJson f ++ objTailJson t, by simp [compactJson],
        by decide, by decide, by decide⟩

theorem headIsDigit_arrTail (xs : List JsonVal) (rest : List Char) :
    headIsDigit (arrTailJson xs ++ rest) = false := by
  cases xs with
  | nil =>
    rw [show arrTailJson [] = [']'] from by simp [arrTailJson]]
    rw [show ([']'] : List Char) ++ rest = ']' :: rest from rfl]
    simp [headIsDigit, isDigitChar]
  | cons x t =>
    rw [show arrTailJson (x :: t) = ',' :: ' ' :: compactJson x ++ arrTailJson t
      from by simp [arrTailJson]]
    simp [headIsDigit, isDigitChar]

theorem headIsDigit_objTail (fs : List (List Char × JsonVal)) (rest : List Char) :
    headIsDigit (objTailJson fs ++ rest) = false := by
  cases fs with
  | nil =>
    rw [show objTailJson [] = ['}'] from by simp [objTailJson]]
    rw [show (['}'] : List Char) ++ rest = '}' :: rest from rfl]
    simp [headIsDigit, isDigitChar]
  | cons f t =>
    rw [show objTailJson (f :: t) = ',' :: ' ' :: fieldJson f ++ objTailJson t
      from by simp [objTailJson]]
    simp [headIsDigit, isDigitChar]

/-! ### Leading-whitespace transparency of the parser -/

theorem parseValue_ws (fuel : Nat) (c : Char) (l : List Char) (h : isWsChar c = true) :
    parseValue fuel (c :: l) = parseValue fuel l := by
  cases fuel with
  | zero => rfl
  | succ f => simp only [parseValue, skipWs_cons_of_ws _ h]

theorem parseElems_ws (fuel : Nat) (c : Char) (l : List Char) (h : isWsChar c = true) :
    parseElems fuel (c :: l) = parseElems fuel l := by
  cases fuel with
  | zero => rfl
  | succ f => simp only [parseElems, parseValue_ws f c l h]

theorem parseFields_ws (fuel : Nat) (c : Char) (l : List Char) (h : isWsChar c = true) :
    parseFields fuel (c :: l) = parseFields fuel l := by
  cases fuel with
  | zero => rfl
  | succ f => simp only [parseFields, skipWs_cons_of_ws _ h]

theorem skipWs_notWs {c : Char} (h : isWsChar c = false) (l : List Char) :
    skipWs (c :: l) = c :: l := skipWs_cons_of_notWs l h

theorem parseValue_space (fuel : Nat) (l : List Char) :
    parseValue fuel (' ' :: l) = parseValue fuel l := parseValue_ws fuel ' ' l (by decide)

theorem parseElems_space (fuel : Nat) (l : List Char) :
    parseElems fuel (' ' :: l) = parseElems fuel l := parseElems_ws fuel ' ' l (by decide)

theorem parseFields_space (fuel : Nat) (l : List Char) :
    parseFields fuel (' ' :: l) = parseFields fuel l := parseFields_ws fuel ' ' l (by decide)

/-! ### Parser reduction on serialized heads -/

theorem parseValue_null_red (f : Nat) (rest : List Char) :
    parseValue (f + 1) ('n' :: 'u' :: 'l' :: 'l' :: rest) = some (.null, rest) := rfl

theorem parseValue_true_red (f : Nat) (rest : List Char) :
    parseValue (f + 1) ('t' :: 'r' :: 'u' :: 'e' :: rest) = some (.bool true, rest) := rfl

theorem parseValue_false_red (f : Nat) (rest : List Char) :
    parseValue (f + 1) ('f' :: 'a' :: 'l' :: 's' :: 'e' :: rest) = some (.bool false, rest) := rfl

theorem parseValue_not_special (f : Nat) (c : Char) (cs : List Char)
    (hws : isWsChar c = false) (h1 : c ≠ 'n') (h2 : c ≠ 't') (h3 : c ≠ 'f')
    (h4 : c ≠ '"') (h5 : c ≠ '[') (h6 : c ≠ '{') :
    parseValue (f + 1) (c :: cs) = parseNum (c :: cs) := by
  simp only [parseValue, skipWs_cons_of_notWs _ hws]
  simp [h1, h2, h3, h4, h5, h6]

theorem intToChars_cons (i : Int) :
    ∃ c t, intToChars i = c :: t ∧ (c = '-' ∨ isDigitChar c = true) := by
  by_cases hi : i < 0
  · exact ⟨'-', natToChars i.natAbs, by simp [intToChars, hi], Or.inl rfl⟩
  · obtain ⟨c, t, hct⟩ := natToChars_cons i.natAbs
    exact ⟨c, t, by simp [intToChars, hi, hct],
      Or.inr (natToChars_digits _ c (by rw [hct]; simp))⟩

theorem parseValue_num_red (f : Nat) (i : Int) (rest : List Char)
    (hrd : headIsDigit rest = false) :
    parseValue (f + 1) (intToChars i ++ rest) = some (.num i, rest) := by
  obtain ⟨c, t, hct, hc⟩ := intToChars_cons i
  have hprops : isWsChar c = false ∧ c ≠ 'n' ∧ c ≠ 't' ∧ c ≠ 'f' ∧ c ≠ '"' ∧
      c ≠ '[' ∧ c ≠ '{' := by
    rcases hc with hc | hc
    · subst hc
      exact ⟨by decide, by decide, by decide, by decide, by decide, by decide, by decide⟩
    · have h := digit_ne_specials c hc
      exact ⟨notWs_of_digit c hc, h.1, h.2.1, h.2.2.1, h.2.2.2.1, h.2.2.2.2.1, h.2.2.2.2.2.1⟩
  obtain ⟨hws, h1, h2, h3, h4, h5, h6⟩ := hprops
  rw [hct, List.cons_append, parseValue_not_special f c _ hws h1 h2 h3 h4 h5 h6,
    ← List.cons_append, ← hct, parseNum_intToChars i rest hrd]

theorem parseValue_str_red (f : Nat) (s rest : List Char) :
    parseValue (f + 1) ('"' :: (escapeChars s ++ '"' :: rest)) = some (.str s, rest) := by
  have hred : parseValue (f + 1) ('"' :: (escapeChars s ++ '"' :: rest)) =
      (parseStringBody ((escapeChars s ++ '"' :: rest).length + 1)
          (escapeChars s ++ '"' :: rest)).map
        (fun r => (.str r.1, r.2)) := rfl
  rw [hred, parseStringBody_escape s rest _
    (by have := escapeChars_length s; simp only [List.length_append, List.length_cons]; omega)]
  rfl

theorem parseValue_arr_nil_red (f : Nat) (rest : List Char) :
    parseValue (f + 1) ('[' :: ']' :: rest) = some (.arr [], rest) := rfl

theorem parseValue_obj_nil_red (f : Nat) (rest : List Char) :
    parseValue (f + 1) ('{' :: '}' :: rest) = some (.obj [], rest) := rfl

theorem parseValue_arr_cons_red (f : Nat) (x : JsonVal) (rest2 : List Char) :
    parseValue (f + 1) ('[' :: (compactJson x ++ rest2)) =
      (parseElems f (compactJson x ++ rest2)).map (fun r => (.arr r.1, r.2)) := by
  obtain ⟨c, t, hct, hws, hbr, _⟩ := compactJson_head x
  rw [hct, List.cons_append]
  simp only [parseValue, skipWs_cons_of_notWs _ (show isWsChar '[' = false from by decide),
    skipWs_cons_of_notWs _ hws]
  simp [hbr]

theorem parseValue_obj_cons_red (f : Nat) (k : List Char) (v : JsonVal) (rest2 : List Char) :
    parseValue (f + 1) ('{' :: (fieldJson (k, v) ++ rest2)) =
      (parseFields f (fieldJson (k, v) ++ rest2)).map (fun r => (.obj r.1, r.2)) := by
  rw [show fieldJson (k, v) = '"' :: (escapeChars k ++ ['"', ':', ' '] ++ compactJson v)
    from by simp [fieldJson]]
  rw [List.cons_append]
  simp only [parseValue, skipWs_cons_of_notWs _ (show isWsChar '{' = false from by decide),
    skipWs_cons_of_notWs _ (show isWsChar '"' = false from by decide)]
  simp

theorem parseElems_red (fuel : Nat) (input : List Char) (x : JsonVal) (r : List Char)
    (hpv : parseValue fuel input = some (x, r)) :
    parseElems (fuel + 1) input =
      (match skipWs r with
      | [] => none
      | c2 :: r2 =>
        if c2 = ',' then
          match parseElems fuel r2 with
          | some (vs, r3) => some (x :: vs, r3)
          | none => none
        else if c2 = ']' then some ([x], r2)
        else none) := by
  simp only [parseElems, hpv]

theorem parseFields_step1 (fuel : Nat) (cs k r : List Char)
    (hps : parseStringBody (cs.length + 1) cs = some (k, r)) :
    parseFields (fuel + 1) ('"' :: cs) =
      (match skipWs r with
      | [] => none
      | c2 :: r2 =>
        if c2 = ':' then
          match parseValue fuel r2 with
          | none => none
          | some (v, r3) =>
            match skipWs r3 with
            | [] => none
            | c3 :: r4 =>
              if c3 = ',' then
                match parseFields fuel r4 with
                | some (fs, r5) => some ((k, v) :: fs, r5)
                | none => none
              else if c3 = '}' then some ([(k, v)], r4)
              else none
        else none) := by
  simp only [parseFields, skipWs_cons_of_notWs _ (show isWsChar '"' = false from by decide), hps]
  simp

theorem parse_compact_aux (fuel : Nat) :
    (∀ (j : JsonVal) (rest : List Char), jweight j ≤ fuel → headIsDigit rest = false →
        parseValue fuel (compactJson j ++ rest) = some (j, rest))
  ∧ (∀ (x : JsonVal) (xs : List JsonVal) (rest : List Char),
        1 + jweight x + jweight (.arr xs) ≤ fuel + 1 →
        parseElems fuel (compactJson x ++ (arrTailJson xs ++ rest)) = some (x :: xs, rest))
  ∧ (∀ (k : List Char) (v : JsonVal) (fs : List (List Char × JsonVal)) (rest : List Char),
        1 + jweight v + jweight (.obj fs) ≤ fuel + 1 →
        parseFields fuel (fieldJson (k, v) ++ (objTailJson fs ++ rest)) =
          some ((k, v) :: fs, rest)) := by
  induction fuel with
  | zero =>
    refine ⟨?_, ?_, ?_⟩
    · intro j rest hw _
      have := jweight_pos j
      omega
    · intro x xs rest hw
      have h1 := jweight_pos x
      have h2 := jweight_pos (.arr xs)
      omega
    · intro k v fs rest hw
      have h1 := jweight_pos v
      have h2 := jweight_pos (.obj fs)
      omega
  | succ fuel ih =>
    obtain ⟨ihV, ihE, ihF⟩ := ih
    refine ⟨?_, ?_, ?_⟩
    · intro j rest hw hrd
      cases j with
      | null =>
        rw [show compactJson .null = ['n', 'u', 'l', 'l'] from by simp [compactJson]]
        simp only [List.cons_append, List.nil_append]
        exact parseValue_null_red fuel rest
      | bool b =>
        cases b with
        | true =>
          rw [show compactJson (.bool true) = ['t', 'r', 'u', 'e'] from by simp [compactJson]]
          simp only [List.cons_append, List.nil_append]
          exact parseValue_true_red fuel rest
        | false =>
          rw [show compactJson (.bool false) = ['f', 'a', 'l', 's', 'e']
            from by simp [compactJson]]
          simp only [List.cons_append, List.nil_append]
          exact parseValue_false_red fuel rest
      | num i =>
        rw [show compactJson (.num i) = intToChars i from by simp [compactJson]]
        exact parseValue_num_red fuel i rest hrd
      | str s =>
        rw [show compactJson (.str s) = '"' :: escapeChars s ++ ['"']
          from by simp [compactJson]]
        rw [show ('"' :: escapeChars s ++ ['"']) ++ rest =
          '"' :: (escapeChars s ++ '"' :: rest) from by simp]
        exact parseValue_str_red fuel s rest
      | arr xs =>
        cases xs with
        | nil =>
          rw [show compactJson (.arr []) = ['[', ']'] from by simp [compactJson]]
          simp only [List.cons_append, List.nil_append]
          exact parseValue_arr_nil_red fuel rest
        | cons x t =>
          rw [show compactJson (.arr (x :: t)) = '[' :: compactJson x ++ arrTailJson t
            from by simp [compactJson]]
          rw [show ('[' :: compactJson x ++ arrTailJson t) ++ rest =
            '[' :: (compactJson x ++ (arrTailJson t ++ rest)) from by simp]
          rw [parseValue_arr_cons_red fuel x (arrTailJson t ++ rest)]
          have hw2 : 1 + jweight x + jweight (.arr t) ≤ fuel + 1 := by
            have hh : jweight (.arr (x :: t)) = 1 + jweight x + jweight (.arr t) := by
              simp [jweight]
            omega
          rw [ihE x t rest hw2]
          rfl
      | obj fs =>
        cases fs with
        | nil =>
          rw [show compactJson (.obj []) = ['{', '}'] from by simp [compactJson]]
          simp only [List.cons_append, List.nil_append]
          exact parseValue_obj_nil_red fuel rest
        | cons f t =>
          obtain ⟨k, v⟩ := f
          rw [show compactJson (.obj ((k, v) :: t)) = '{' :: fieldJson (k, v) ++ objTailJson t
            from by simp [compactJson]]
          rw [show ('{' :: fieldJson (k, v) ++ objTailJson t) ++ rest =
            '{' :: (fieldJson (k, v) ++ (objTailJson t ++ rest)) from by simp]
          rw [parseValue_obj_cons_red fuel k v (objTailJson t ++ rest)]
          have hw2 : 1 + jweight v + jweight (.obj t) ≤ fuel + 1 := by
            have hh : jweight (.obj ((k, v) :: t)) = 1 + jweight v + jweight (.obj t) := by
              simp [jweight]
            omega
          rw [ihF k v t rest hw2]
          rfl
    · intro x xs rest hw
      have hx : jweight x ≤ fuel := by
        have := jweight_pos (.arr xs)
        omega
      rw [parseElems_red fuel _ x _
        (ihV x (arrTailJson xs ++ rest) hx (headIsDigit_arrTail xs rest))]
      cases xs with
      | nil =>
        rw [show arrTailJson [] ++ rest = ']' :: rest from by simp [arrTailJson]]
        rw [skipWs_cons_of_notWs _ (show isWsChar ']' = false from by decide)]
        simp
      | cons y ys =>
        rw [show arrTailJson (y :: ys) ++ rest =
          ',' :: ' ' :: (compactJson y ++ (arrTailJson ys ++ rest)) from by simp [arrTailJson]]
        rw [skipWs_cons_of_notWs _ (show isWsChar ',' = false from by decide)]
        have hwy : 1 + jweight y + jweight (.arr ys) ≤ fuel + 1 := by
          have h1 := jweight_pos x
          have hh : jweight (.arr (y :: ys)) = 1 + jweight y + jweight (.arr ys) := by
            simp [jweight]
          omega
        simp [parseElems_space, ihE y ys rest hwy]
    · intro k v fs rest hw
      have hv : jweight v ≤ fuel := by
        have := jweight_pos (.obj fs)
        omega
      rw [show fieldJson (k, v) ++ (objTailJson fs ++ rest) =
        '"' :: (escapeChars k ++ '"' ::
          (':' :: ' ' :: (compactJson v ++ (objTailJson fs ++ rest))))
        from by simp [fieldJson]]
      rw [parseFields_step1 fuel _ k _
        (parseStringBody_escape k _ _
          (by have := escapeChars_length k
              simp only [List.length_append, List.length_cons]
              omega))]
      simp only [skipWs_notWs (show isWsChar ':' = false from by decide), eq_self_iff_true,
        if_true, parseValue_space,
        ihV v (objTailJson fs ++ rest) hv (headIsDigit_objTail fs rest)]
      cases fs with
      | nil =>
        rw [show objTailJson [] ++ rest = '}' :: rest from by simp [objTailJson]]
        simp [skipWs_notWs (show isWsChar '}' = false from by decide)]
      | cons f t =>
        obtain ⟨k2, v2⟩ := f
        rw [show objTailJson ((k2, v2) :: t) ++ rest =
          ',' :: ' ' :: (fieldJson (k2, v2) ++ (objTailJson t ++ rest))
          from by simp [objTailJson]]
        have hwt : 1 + jweight v2 + jweight (.obj t) ≤ fuel + 1 := by
          have h1 := jweight_pos v
          have hh : jweight (.obj ((k2, v2) :: t)) = 1 + jweight v2 + jweight (.obj t) := by
            simp [jweight]
          omega
        simp [skipWs_notWs (show isWsChar ',' = false from by decide), parseFields_space,
          ihF k2 v2 t rest hwt]

/-! ### Fuel sufficiency and the roundtrip -/

theorem arrTail_jweight (xs : List JsonVal)
    (H : ∀ y ∈ xs, jweight y ≤ (compactJson y).length) :
    jweight (.arr xs) ≤ (arrTailJson xs).length := by
  induction xs with
  | nil => simp [arrTailJson, jweight]
  | cons y ys ih =>
    have h1 : jweight y ≤ (compactJson y).length := H y (by simp)
    have h2 : jweight (.arr ys) ≤ (arrTailJson ys).length :=
      ih (fun z hz => H z (by simp [hz]))
    rw [show jweight (.arr (y :: ys)) = 1 + jweight y + jweight (.arr ys)
      from by simp [jweight]]
    rw [show arrTailJson (y :: ys) = ',' :: ' ' :: compactJson y ++ arrTailJson ys
      from by simp [arrTailJson]]
    simp only [List.length_append, List.length_cons]
    omega

theorem objTail_jweight (fs : List (List Char × JsonVal))
    (H : ∀ p ∈ fs, jweight p.2 ≤ (compactJson p.2).length) :
    jweight (.obj fs) ≤ (objTailJson fs).length := by
  induction fs with
  | nil => simp [objTailJson, jweight]
  | cons f fs ih =>
    obtain ⟨k, v⟩ := f
    have h1 : jweight v ≤ (compactJson v).length := H (k, v) (by simp)
    have h2 : jweight (.obj fs) ≤ (objTailJson fs).length :=
      ih (fun p hp => H p (by simp [hp]))
    rw [show jweight (.obj ((k, v) :: fs)) = 1 + jweight v + jweight (.obj fs)
      from by simp [jweight]]
    rw [show objTailJson ((k, v) :: fs) = ',' :: ' ' :: fieldJson (k, v) ++ objTailJson fs
      from by simp [objTailJson]]
    rw [show fieldJson (k, v) = '"' :: escapeChars k ++ ['"', ':', ' '] ++ compactJson v
      from by simp [fieldJson]]
    simp only [List.length_append, List.length_cons]
    omega

theorem jweight_le_length_aux (n : Nat) : ∀ (j : JsonVal), sizeOf j ≤ n →
    jweight j ≤ (compactJson j).length := by
  induction n with
  | zero =>
    intro j h
    exfalso
    cases j <;> simp at h
  | succ n ihn =>
    intro j hj
    cases j with
    | null => simp [compactJson, jweight]
    | bool b => cases b <;> simp [compactJson, jweight]
    | num i =>
      obtain ⟨c, t, hct, _⟩ := intToChars_cons i
      rw [show compactJson (.num i) = intToChars i from by simp [compactJson], hct]
      simp [jweight]
    | str s =>
      rw [show compactJson (.str s) = '"' :: escapeChars s ++ ['"'] from by simp [compactJson]]
      simp [jweight]
    | arr xs =>
      have hmem : ∀ y ∈ xs, jweight y ≤ (compactJson y).length := by
        intro y hy
        apply ihn
        have h1 : sizeOf y < sizeOf xs := List.sizeOf_lt_of_mem hy
        have h2 : sizeOf (JsonVal.arr xs) = 1 + sizeOf xs := by simp
        omega
      cases xs with
      | nil => simp [compactJson, jweight]
      | cons x t =>
        rw [show compactJson (.arr (x :: t)) = '[' :: compactJson x ++ arrTailJson t
          from by simp [compactJson]]
        rw [show jweight (.arr (x :: t)) = 1 + jweight x + jweight (.arr t)
          from by simp [jweight]]
        have h1 : jweight x ≤ (compactJson x).length := hmem x (by simp)
        have h2 : jweight (.arr t) ≤ (arrTailJson t).length :=
          arrTail_jweight t (fun y hy => hmem y (by simp [hy]))
        simp only [List.length_append, List.length_cons]
        omega
    | obj fs =>
      have hmem : ∀ p ∈ fs, jweight p.2 ≤ (compactJson p.2).length := by
        intro p hp
        apply ihn
        have h1 : sizeOf p < sizeOf fs := List.sizeOf_lt_of_mem hp
        have h2 : sizeOf (JsonVal.obj fs) = 1 + sizeOf fs := by simp
        obtain ⟨pk, pv⟩ := p
        have h3 : sizeOf ((pk, pv) : List Char × JsonVal) = 1 + sizeOf pk + sizeOf pv := by
          simp
        show sizeOf pv ≤ n
        omega
      cases fs with
      | nil => simp [compactJson, jweight]
      | cons f t =>
        obtain ⟨k, v⟩ := f
        rw [show compactJson (.obj ((k, v) :: t)) = '{' :: fieldJson (k, v) ++ objTailJson t
          from by simp [compactJson]]
        rw [show jweight (.obj ((k, v) :: t)) = 1 + jweight v + jweight (.obj t)
          from by simp [jweight]]
        rw [show fieldJson (k, v) = '"' :: escapeChars k ++ ['"', ':', ' '] ++ compactJson v
          from by simp [fieldJson]]
        have h1 : jweight v ≤ (compactJson v).length := hmem (k, v) (by simp)
        have h2 : jweight (.obj t) ≤ (objTailJson t).length :=
          objTail_jweight t (fun p hp => hmem p (by simp [hp]))
        simp only [List.length_append, List.length_cons]
        omega

theorem jweight_le_length (j : JsonVal) : jweight j ≤ (compactJson j).length :=
  jweight_le_length_aux (sizeOf j) j (le_refl _)

/-- Roundtrip: parsing the serialized form of any JSON value recovers
exactly that value (`decode(encode(e)) == e` in the spec's wording). -/
theorem jsonParse_compactJson (j : JsonVal) : jsonParse (compactJson j) = some j := by
  have h := (parse_compact_aux ((compactJson j).length + 1)).1 j []
    (by have := jweight_le_length j; omega) rfl
  rw [List.append_nil] at h
  simp only [jsonParse, h]
  simp [skipWs]

/-! ### One frame per line: the serialized form contains no newline -/

theorem hexDigitChar_ne_nl (d : Nat) : hexDigitChar d ≠ '\n' := by
  unfold hexDigitChar
  split <;> decide

theorem nl_not_mem_escapeChar (c : Char) : '\n' ∉ escapeChar c := by
  unfold escapeChar
  split_ifs with h1 h2 h3
  · decide
  · decide
  · intro hm
    simp only [List.mem_cons, List.not_mem_nil, or_false] at hm
    rcases hm with h | h | h | h | h | h <;>
      first
        | exact absurd h.symm (by decide)
        | exact absurd h.symm (hexDigitChar_ne_nl _)
  · intro hm
    simp only [List.mem_singleton] at hm
    subst hm
    revert h3
    decide

theorem nl_not_mem_escapeChars (s : List Char) : '\n' ∉ escapeChars s := by
  induction s with
  | nil => simp [escapeChars]
  | cons c t ih =>
    simp only [escapeChars, List.mem_append]
    intro hm
    rcases hm with h | h
    · exact nl_not_mem_escapeChar c h
    · exact ih h

theorem nl_not_mem_natToChars (n : Nat) : '\n' ∉ natToChars n := by
  intro hm
  have hd := natToChars_digits n _ hm
  exact (digit_ne_specials _ hd).2.2.2.2.2.2.2.2.2.2 rfl

theorem nl_not_mem_intToChars (i : Int) : '\n' ∉ intToChars i := by
  unfold intToChars
  split_ifs
  · intro hm
    simp only [List.mem_cons] at hm
    rcases hm with h | h
    · exact absurd h (by decide)
    · exact nl_not_mem_natToChars _ h
  · exact nl_not_mem_natToChars _

theorem arrTail_no_nl (xs : List JsonVal) (H : ∀ y ∈ xs, '\n' ∉ compactJson y) :
    '\n' ∉ arrTailJson xs := by
  induction xs with
  | nil =>
    rw [show arrTailJson [] = [']'] from by simp [arrTailJson]]
    decide
  | cons y ys ih =>
    rw [show arrTailJson (y :: ys) = ',' :: ' ' :: compactJson y ++ arrTailJson ys
      from by simp [arrTailJson]]
    simp only [List.cons_append, List.mem_cons, List.mem_append]
    intro hm
    rcases hm with h | h | h | h
    · exact absurd h (by decide)
    · exact absurd h (by decide)
    · exact H y (by simp) h
    · exact ih (fun z hz => H z (by simp [hz])) h

theorem nl_not_mem_fieldJson (k : List Char) (v : JsonVal)
    (hv : '\n' ∉ compactJson v) : '\n' ∉ fieldJson (k, v) := by
  rw [show fieldJson (k, v) = '"' :: escapeChars k ++ ['"', ':', ' '] ++ compactJson v
    from by simp [fieldJson]]
  intro hm
  rcases List.mem_append.mp hm with h | h
  · rcases List.mem_append.mp h with h | h
    · rcases List.mem_cons.mp h with h | h
      · exact absurd h (by decide)
      · exact nl_not_mem_escapeChars k h
    · exact absurd h (by decide)
  · exact hv h

theorem objTail_no_nl (fs : List (List Char × JsonVal))
    (H : ∀ p ∈ fs, '\n' ∉ compactJson p.2) :
    '\n' ∉ objTailJson fs := by
  induction fs with
  | nil =>
    rw [show objTailJson [] = ['}'] from by simp [objTailJson]]
    decide
  | cons f fs ih =>
    obtain ⟨k, v⟩ := f
    rw [show objTailJson ((k, v) :: fs) = ',' :: ' ' :: fieldJson (k, v) ++ objTailJson fs
      from by simp [objTailJson]]
    intro hm
    rcases List.mem_append.mp hm with h | h
    · rcases List.mem_cons.mp h with h | h
      · exact absurd h (by decide)
      rcases List.mem_cons.mp h with h | h
      · exact absurd h (by decide)
      · exact nl_not_mem_fieldJson k v (H (k, v) (by simp)) h
    · exact ih (fun p hp => H p (by simp [hp])) h

theorem compactJson_no_nl_aux (n : Nat) : ∀ (j : JsonVal), sizeOf j ≤ n →
    '\n' ∉ compactJson j := by
  induction n with
  | zero =>
    intro j h
    exfalso
    cases j <;> simp at h
  | succ n ihn =>
    intro j hj
    cases j with
    | null => rw [show compactJson .null = ['n', 'u', 'l', 'l'] from by simp [compactJson]]; decide
    | bool b =>
      cases b with
      | true =>
        rw [show compactJson (.bool true) = ['t', 'r', 'u', 'e'] from by simp [compactJson]]
        decide
      | false =>
        rw [show compactJson (.bool false) = ['f', 'a', 'l', 's', 'e']
          from by simp [compactJson]]
        decide
    | num i =>
      rw [show compactJson (.num i) = intToChars i from by simp [compactJson]]
      exact nl_not_mem_intToChars i
    | str s =>
      rw [show compactJson (.str s) = '"' :: escapeChars s ++ ['"'] from by simp [compactJson]]
      intro hm
      rcases List.mem_append.mp hm with h | h
      · rcases List.mem_cons.mp h with h | h
        · exact absurd h (by decide)
        · exact nl_not_mem_escapeChars s h
      · exact absurd h (by decide)
    | arr xs =>
      have hmem : ∀ y ∈ xs, '\n' ∉ compactJson y := by
        intro y hy
        apply ihn
        have h1 : sizeOf y < sizeOf xs := List.sizeOf_lt_of_mem hy
        have h2 : sizeOf (JsonVal.arr xs) = 1 + sizeOf xs := by simp
        omega
      cases xs with
      | nil => rw [show compactJson (.arr []) = ['[', ']'] from by simp [compactJson]]; decide
      | cons x t =>
        rw [show compactJson (.arr (x :: t)) = '[' :: compactJson x ++ arrTailJson t
          from by simp [compactJson]]
        intro hm
        rcases List.mem_append.mp hm with h | h
        · rcases List.mem_cons.mp h with h | h
          · exact absurd h (by decide)
          · exact hmem x (by simp) h
        · exact arrTail_no_nl t (fun y hy => hmem y (by simp [hy])) h
    | obj fs =>
      have hmem : ∀ p ∈ fs, '\n' ∉ compactJson p.2 := by
        intro p hp
        apply ihn
        have h1 : sizeOf p < sizeOf fs := List.sizeOf_lt_of_mem hp
        have h2 : sizeOf (JsonVal.obj fs) = 1 + sizeOf fs := by simp
        obtain ⟨pk, pv⟩ := p
        have h3 : sizeOf ((pk, pv) : List Char × JsonVal) = 1 + sizeOf pk + sizeOf pv := by
          simp
        show sizeOf pv ≤ n
        omega
      cases fs with
      | nil => rw [show compactJson (.obj []) = ['{', '}'] from by simp [compactJson]]; decide
      | cons f t =>
        obtain ⟨k, v⟩ := f
        rw [show compactJson (.obj ((k, v) :: t)) = '{' :: fieldJson (k, v) ++ objTailJson t
          from by simp [compactJson]]
        intro hm
        rcases List.mem_append.mp hm with h | h
        · rcases List.mem_cons.mp h with h | h
          · exact absurd h (by decide)
          · exact nl_not_mem_fieldJson k v (hmem (k, v) (by simp)) h
        · exact objTail_no_nl t (fun p hp => hmem p (by simp [hp])) h

theorem compactJson_no_nl (j : JsonVal) : '\n' ∉ compactJson j :=
  compactJson_no_nl_aux (sizeOf j) j (le_refl _)

/-! ### Last character of a frame payload, and trim -/

theorem rev_head_digit (n : Nat) :
    ∃ c t, (natToChars n).reverse = c :: t ∧ isDigitChar c = true := by
  cases hr : (natToChars n).reverse with
  | nil =>
    exact absurd (by simpa using congrArg List.reverse hr) (natToChars_ne_nil n)
  | cons c t =>
    refine ⟨c, t, rfl, ?_⟩
    have hmem : c ∈ (natToChars n).reverse := by rw [hr]; simp
    exact natToChars_digits n c (List.mem_reverse.mp hmem)

theorem arrTail_rev (xs : List JsonVal) : ∃ t, (arrTailJson xs).reverse = ']' :: t := by
  induction xs with
  | nil =>
    refine ⟨[], ?_⟩
    rw [show arrTailJson [] = [']'] from by simp [arrTailJson]]
    decide
  | cons y ys ih =>
    obtain ⟨t, ht⟩ := ih
    refine ⟨t ++ (',' :: ' ' :: compactJson y).reverse, ?_⟩
    rw [show arrTailJson (y :: ys) = (',' :: ' ' :: compactJson y) ++ arrTailJson ys
      from by simp [arrTailJson]]
    rw [List.reverse_append, ht]
    simp

theorem objTail_rev (fs : List (List Char × JsonVal)) :
    ∃ t, (objTailJson fs).reverse = '}' :: t := by
  induction fs with
  | nil =>
    refine ⟨[], ?_⟩
    rw [show objTailJson [] = ['}'] from by simp [objTailJson]]
    decide
  | cons f fs ih =>
    obtain ⟨t, ht⟩ := ih
    refine ⟨t ++ (',' :: ' ' :: fieldJson f).reverse, ?_⟩
    rw [show objTailJson (f :: fs) = (',' :: ' ' :: fieldJson f) ++ objTailJson fs
      from by simp [objTailJson]]
    rw [List.reverse_append, ht]
    simp

theorem compactJson_rev_notWs (j : JsonVal) :
    ∃ c t, (compactJson j).reverse = c :: t ∧ isWsChar c = false := by
  cases j with
  | null =>
    refine ⟨'l', ['l', 'u', 'n'], ?_, by decide⟩
    rw [show compactJson .null = ['n', 'u', 'l', 'l'] from by simp [compactJson]]
    decide
  | bool b =>
    cases b with
    | true =>
      refine ⟨'e', ['u', 'r', 't'], ?_, by decide⟩
      rw [show compactJson (.bool true) = ['t', 'r', 'u', 'e'] from by simp [compactJson]]
      decide
    | false =>
      refine ⟨'e', ['s', 'l', 'a', 'f'], ?_, by decide⟩
      rw [show compactJson (.bool false) = ['f', 'a', 'l', 's', 'e'] from by simp [compactJson]]
      decide
  | num i =>
    obtain ⟨c, t, hct, hcd⟩ := rev_head_digit i.natAbs
    by_cases hi : i < 0
    · refine ⟨c, t ++ ['-'], ?_, notWs_of_digit c hcd⟩
      rw [show compactJson (.num i) = '-' :: natToChars i.natAbs
        from by simp [compactJson, intToChars, hi]]
      rw [List.reverse_cons, hct]
      simp
    · refine ⟨c, t, ?_, notWs_of_digit c hcd⟩
      rw [show compactJson (.num i) = natToChars i.natAbs
        from by simp [compactJson, intToChars, hi]]
      exact hct
  | str s =>
    refine ⟨'"', (escapeChars s).reverse ++ ['"'], ?_, by decide⟩
    rw [show compactJson (.str s) = ('"' :: escapeChars s) ++ ['"'] from by simp [compactJson]]
    rw [List.reverse_append]
    simp
  | arr xs =>
    cases xs with
    | nil =>
      refine ⟨']', ['['], ?_, by decide⟩
      rw [show compactJson (.arr []) = ['[', ']'] from by simp [compactJson]]
      decide
    | cons x t =>
      obtain ⟨tt, htt⟩ := arrTail_rev t
      refine ⟨']', tt ++ ('[' :: compactJson x).reverse, ?_, by decide⟩
      rw [show compactJson (.arr (x :: t)) = ('[' :: compactJson x) ++ arrTailJson t
        from by simp [compactJson]]
      rw [List.reverse_append, htt]
      simp
  | obj fs =>
    cases fs with
    | nil =>
      refine ⟨'}', ['{'], ?_, by decide⟩
      rw [show compactJson (.obj []) = ['{', '}'] from by simp [compactJson]]
      decide
    | cons f t =>
      obtain ⟨tt, htt⟩ := objTail_rev t
      refine ⟨'}', tt ++ ('{' :: fieldJson f).reverse, ?_, by decide⟩
      rw [show compactJson (.obj (f :: t)) = ('{' :: fieldJson f) ++ objTailJson t
        from by simp [compactJson]]
      rw [List.reverse_append, htt]
      simp

theorem trimChars_compactJson (j : JsonVal) : trimChars (compactJson j) = compactJson j := by
  obtain ⟨c, t, hct, hws, _, _⟩ := compactJson_head j
  obtain ⟨c2, t2, hrev, hws2⟩ := compactJson_rev_notWs j
  have h1 : (compactJson j).dropWhile isWsChar = compactJson j := by
    rw [hct]
    simp [List.dropWhile_cons, hws]
  have h2 : ((compactJson j).reverse).dropWhile isWsChar = (compactJson j).reverse := by
    rw [hrev]
    simp [List.dropWhile_cons, hws2]
  unfold trimChars
  rw [h1, h2, List.reverse_reverse]

theorem trimChars_compactJson_ne_nil (j : JsonVal) : trimChars (compactJson j) ≠ [] := by
  rw [trimChars_compactJson]
  obtain ⟨c, t, hct, _, _, _⟩ := compactJson_head j
  rw [hct]
  simp

/-! ### Splitting a chunk on newlines -/

theorem splitOnChar_append_sep (sep : Char) (l rest : List Char) (h : sep ∉ l) :
    splitOnChar sep (l ++ sep :: rest) = l :: splitOnChar sep rest := by
  induction l with
  | nil => simp [splitOnChar]
  | cons c t ih =>
    have hc : c ≠ sep := fun he => h (by simp [he])
    have ht : sep ∉ t := fun hm => h (by simp [hm])
    rw [List.cons_append]
    simp only [splitOnChar, ih ht]
    simp [hc]

theorem startsWith_dataTag (l : List Char) :
    startsWithChars dataTag (dataTag ++ l) = true := by
  simp [dataTag, startsWithChars]

theorem drop_dataTag (l : List Char) : (dataTag ++ l).drop 6 = l := rfl

theorem decodeLine_payload (j : JsonVal) :
    decodeLine (dataTag ++ compactJson j) = some j := by
  unfold decodeLine
  rw [if_pos (startsWith_dataTag (compactJson j))]
  rw [show (dataTag ++ compactJson j).drop 6 = compactJson j from rfl]
  rw [if_neg (trimChars_compactJson_ne_nil j)]
  exact jsonParse_compactJson j

theorem nl_not_mem_frame_line (j : JsonVal) : '\n' ∉ dataTag ++ compactJson j := by
  intro hm
  rcases List.mem_append.mp hm with h | h
  · revert h; decide
  · exact compactJson_no_nl j h

theorem decodeChunk_frames (g : List JsonVal) :
    decodeChunk ((g.map formatSse).flatten) = g := by
  induction g with
  | nil => rfl
  | cons j g ih =>
    have hflat : ((j :: g).map formatSse).flatten =
        (dataTag ++ compactJson j) ++ '\n' :: ('\n' :: (g.map formatSse).flatten) := by
      simp [formatSse]
    rw [hflat]
    unfold decodeChunk
    rw [splitOnChar_append_sep '\n' _ _ (nl_not_mem_frame_line j)]
    rw [show splitOnChar '\n' ('\n' :: (g.map formatSse).flatten) =
      [] :: splitOnChar '\n' ((g.map formatSse).flatten) from by simp [splitOnChar]]
    simp only [List.filterMap_cons, decodeLine_payload j]
    rw [show decodeLine [] = none from rfl]
    unfold decodeChunk at ih
    rw [ih]

/-- C1: for every valid sequence of SSE frames (the frames of an
arbitrary event list) and every partition of the concatenated frame
bytes into chunks whose split points fall only between frames, the
`sendMessage` decoder yields exactly the original events, in the
original order, regardless of the chosen split points. -/
theorem C1_chunked_decode_exact (groups : List (List JsonVal)) :
    decodeChunks (groups.map (fun g => (g.map formatSse).flatten)) = groups.flatten := by
  induction groups with
  | nil => rfl
  | cons g gs ih =>
    simp only [List.map_cons, decodeChunks, List.flatten_cons]
    rw [decodeChunk_frames g]
    unfold decodeChunks at ih
    rw [ih]

/-- C2: a candidate line whose payload fails JSON parsing is silently
dropped (the per-line decoder is a total function returning no event
for it) and decoding continues with the other lines, whose decoded
events are unaffected. -/
theorem C2_malformed_line_skipped (pre post : List (List Char)) (bad : List Char)
    (hcand : startsWithChars dataTag bad = true)
    (hparse : jsonParse (bad.drop 6) = none) :
    decodeLine bad = none ∧
      decodeLines (pre ++ bad :: post) = decodeLines (pre ++ post) := by
  have hnone : decodeLine bad = none := by
    unfold decodeLine
    rw [if_pos hcand]
    by_cases ht : trimChars (bad.drop 6) = []
    · rw [if_pos ht]
    · rw [if_neg ht]
      exact hparse
  refine ⟨hnone, ?_⟩
  unfold decodeLines
  simp only [List.filterMap_append, List.filterMap_cons, hnone]

/-- Witness for C2 at a concrete malformed line between two well-formed
frames. -/
theorem C2_malformed_line_skipped_witness :
    decodeLine (dataTag ++ ['{', 'o', 'o', 'p', 's']) = none ∧
      decodeLines ([dataTag ++ compactJson (.str ['h', 'i'])] ++
          (dataTag ++ ['{', 'o', 'o', 'p', 's']) :: [dataTag ++ compactJson .null]) =
        decodeLines ([dataTag ++ compactJson (.str ['h', 'i'])] ++
          [dataTag ++ compactJson .null]) :=
  C2_malformed_line_skipped _ _ _ (by rfl) (by rfl)

/-- C3: only lines beginning with the literal `data: ` are candidate
payloads; the decoder strips exactly one prefix, strips one second
duplicate prefix if present, and never strips more than one extra. -/
theorem C3_data_prefix_handling :
    (∀ line : List Char, startsWithChars dataTag line = false →
        sseCandidatePayload line = none)
  ∧ (∀ s : List Char, startsWithChars dataTag s = false →
        sseCandidatePayload (dataTag ++ s) = some s)
  ∧ (∀ s : List Char, sseCandidatePayload (dataTag ++ (dataTag ++ s)) = some s)
  ∧ (∀ s : List Char, sseCandidatePayload (dataTag ++ (dataTag ++ (dataTag ++ s)))
        = some (dataTag ++ s)) := by
  refine ⟨?_, ?_, ?_, ?_⟩
  · intro line h
    unfold sseCandidatePayload
    rw [if_neg (by simp [h])]
  · intro s h
    unfold sseCandidatePayload
    rw [if_pos (startsWith_dataTag s)]
    simp [drop_dataTag, h]
  · intro s
    unfold sseCandidatePayload
    rw [if_pos (startsWith_dataTag (dataTag ++ s))]
    simp [drop_dataTag, startsWith_dataTag]
  · intro s
    unfold sseCandidatePayload
    rw [if_pos (startsWith_dataTag (dataTag ++ (dataTag ++ s)))]
    simp [drop_dataTag, startsWith_dataTag]

/-- Witness for C3 at concrete lines. -/
theorem C3_data_prefix_handling_witness :
    sseCandidatePayload (['h', 'e', 'l', 'l', 'o']) = none
  ∧ sseCandidatePayload (dataTag ++ ['x', 'y', 'z']) = some (['x', 'y', 'z'])
  ∧ sseCandidatePayload (dataTag ++ (dataTag ++ ['x'])) = some (['x'])
  ∧ sseCandidatePayload (dataTag ++ (dataTag ++ (dataTag ++ ['x'])))
      = some (dataTag ++ ['x']) :=
  ⟨C3_data_prefix_handling.1 _ (by rfl), C3_data_prefix_handling.2.1 _ (by rfl),
    C3_data_prefix_handling.2.2.1 _, C3_data_prefix_handling.2.2.2 _⟩

/-- C4: the transport frame of every event the encoder emits is exactly
`"data: "` followed by the single-line JSON serialization of the event
followed by `"\n\n"`, and the JSON payload after the prefix never
carries a second `data: ` prefix. -/
theorem C4_sse_frame_exact (fields : List (List Char × JsonVal)) :
    formatSse (.obj fields) = dataTag ++ compactJson (.obj fields) ++ ['\n', '\n']
  ∧ startsWithChars dataTag ((formatSse (.obj fields)).drop 6) = false := by
  constructor
  · rfl
  · rw [show (formatSse (.obj fields)).drop 6 = compactJson (.obj fields) ++ ['\n', '\n']
      from rfl]
    have hobj : ∃ t, compactJson (.obj fields) = '{' :: t := by
      cases fields with
      | nil => exact ⟨['}'], by simp [compactJson]⟩
      | cons f t => exact ⟨fieldJson f ++ objTailJson t, by simp [compactJson]⟩
    obtain ⟨t, ht⟩ := hobj
    rw [ht]
    simp [dataTag, startsWithChars]

theorem jsOr_some_ne (m fallback : List Char) (h : m ≠ []) : jsOr (some m) fallback = m := by
  simp [jsOr, h]

theorem jsOr_some_self (m : List Char) : jsOr (some m) [] = m := by
  simp only [jsOr]
  split
  · rename_i h
    exact h.symm
  · rfl

theorem map_skip_nonstreaming (base : List ChatMessage)
    (hbase : ∀ m ∈ base, m.isStreaming = false) (f : ChatMessage → ChatMessage) :
    base.map (fun m => if m.isStreaming ∧ m.role = assistantRole then f m else m) = base := by
  induction base with
  | nil => rfl
  | cons m t ih =>
    have hm : m.isStreaming = false := hbase m (by simp)
    simp only [List.map_cons, hm]
    rw [if_neg (by simp)]
    rw [ih (fun x hx => hbase x (by simp [hx]))]

theorem wsContent_fold (now mid : List Char) (deltas : List (List Char))
    (base : List ChatMessage) (idv : List Char) (tt cc : Bool)
    (hbase : ∀ m ∈ base, m.isStreaming = false) :
    ∀ acc : List Char,
      applyWsEvents now (deltas.map (fun d => WsEvent.textMessageContent (some mid) (some d)))
          ⟨base ++ [⟨idv, assistantRole, acc, true⟩], acc, tt, cc⟩ =
        ⟨base ++ [⟨idv, assistantRole, acc ++ deltas.flatten, true⟩],
          acc ++ deltas.flatten, tt, cc⟩ := by
  induction deltas with
  | nil =>
    intro acc
    simp [applyWsEvents]
  | cons d ds ih =>
    intro acc
    have hstep : handleWebSocketMessage now (.textMessageContent (some mid) (some d))
        ⟨base ++ [⟨idv, assistantRole, acc, true⟩], acc, tt, cc⟩ =
        ⟨base ++ [⟨idv, assistantRole, acc ++ d, true⟩], acc ++ d, tt, cc⟩ := by
      simp only [handleWebSocketMessage, jsOr_some_self, List.map_append,
        map_skip_nonstreaming base hbase]
      simp
    simp only [List.map_cons, applyWsEvents, List.foldl_cons, hstep]
    have hih := ih (acc ++ d)
    simp only [applyWsEvents] at hih
    rw [hih]
    simp

/-- C5: for an interleaving-free sequence TextMessageStart, a run of
TextMessageContent deltas, then TextMessageEnd (all with one id),
started with an empty accumulator and no other open message, the
assembled message presented at the end carries exactly the
concatenation of the deltas. -/
theorem C5_content_concatenation (now mid : List Char) (deltas : List (List Char))
    (s : ChatState) (hid : mid ≠ [])
    (hacc : s.currentStreaming = [])
    (hclosed : ∀ m ∈ s.messages, m.isStreaming = false) :
    applyWsEvents now
        ([WsEvent.textMessageStart (some mid)] ++
          deltas.map (fun d => WsEvent.textMessageContent (some mid) (some d)) ++
          [WsEvent.textMessageEnd]) s =
      { s with
          messages := s.messages ++ [⟨mid, assistantRole, deltas.flatten, false⟩],
          currentStreaming := deltas.flatten } := by
  obtain ⟨msgs, cs0, tt, cc⟩ := s
  have hacc' : cs0 = [] := hacc
  subst hacc'
  have hclosed' : ∀ m ∈ msgs, m.isStreaming = false := hclosed
  have hstart : handleWebSocketMessage now (.textMessageStart (some mid)) ⟨msgs, [], tt, cc⟩ =
      ⟨msgs ++ [⟨mid, assistantRole, [], true⟩], [], tt, cc⟩ := by
    simp [handleWebSocketMessage, jsOr_some_ne mid now hid]
  have hfold := wsContent_fold now mid deltas msgs mid tt cc hclosed' []
  have hend : handleWebSocketMessage now .textMessageEnd
      ⟨msgs ++ [⟨mid, assistantRole, [] ++ deltas.flatten, true⟩],
        [] ++ deltas.flatten, tt, cc⟩ =
      ⟨msgs ++ [⟨mid, assistantRole, deltas.flatten, false⟩], deltas.flatten, tt, cc⟩ := by
    simp only [handleWebSocketMessage, List.map_append, map_skip_nonstreaming msgs hclosed']
    simp
  simp only [applyWsEvents, List.foldl_append, List.foldl_cons, List.foldl_nil, hstart]
  simp only [applyWsEvents] at hfold
  rw [hfold, hend]

/-- Witness for C5 at a concrete two-delta sequence. -/
theorem C5_content_concatenation_witness :
    applyWsEvents []
        ([WsEvent.textMessageStart (some ['m', '1'])] ++
          [['H', 'i'], [' ', 'y', 'o', 'u']].map
            (fun d => WsEvent.textMessageContent (some ['m', '1']) (some d)) ++
          [WsEvent.textMessageEnd]) ⟨[], [], false, false⟩ =
      { (⟨[], [], false, false⟩ : ChatState) with
          messages := [] ++ [⟨['m', '1'], assistantRole,
            [['H', 'i'], [' ', 'y', 'o', 'u']].flatten, false⟩],
          currentStreaming := [['H', 'i'], [' ', 'y', 'o', 'u']].flatten } :=
  C5_content_concatenation [] ['m', '1'] [['H', 'i'], [' ', 'y', 'o', 'u']]
    ⟨[], [], false, false⟩ (by decide) rfl (by simp)

/-- Counterexample to C6 as stated: a TextMessageContent whose id
matches no open message (here: no message is open at all) DOES mutate
the streaming accumulator — the delta is appended to it. -/
theorem C6_counterexample :
    (⟨[], [], true, true⟩ : ChatState).currentStreaming = []
  ∧ (handleWebSocketMessage [] (.textMessageContent (some ['m', 'X']) (some ['x']))
        ⟨[], [], true, true⟩).currentStreaming = ['x']
  ∧ (['x'] : List Char) ≠ [] :=
  ⟨rfl, rfl, by decide⟩

/-- C6 amended: when a TextMessageContent arrives while no message is
open, the client raises nothing and the run continues — the typing
flag and the rendered message list are unchanged (no ProtocolViolation
classification exists in the code) — but the delta IS appended to the
streaming-content accumulator (the handler never checks message ids). -/
theorem C6_unmatched_content_behavior (now mid d : List Char) (s : ChatState)
    (hopen : ∀ m ∈ s.messages, m.isStreaming = false) :
    (handleWebSocketMessage now (.textMessageContent (some mid) (some d)) s).messages
        = s.messages
  ∧ (handleWebSocketMessage now (.textMessageContent (some mid) (some d)) s).isTyping
        = s.isTyping
  ∧ (handleWebSocketMessage now (.textMessageContent (some mid) (some d)) s).currentStreaming
        = s.currentStreaming ++ d := by
  refine ⟨?_, rfl, ?_⟩
  · simp only [handleWebSocketMessage]
    exact map_skip_nonstreaming s.messages hopen _
  · simp [handleWebSocketMessage, jsOr_some_self]

/-- Witness for the amended C6 at a concrete state. -/
theorem C6_unmatched_content_behavior_witness :
    (handleWebSocketMessage [] (.textMessageContent (some ['m', 'X']) (some ['x']))
        ⟨[⟨['u'], ['u', 's', 'e', 'r'], ['h', 'i'], false⟩], [], true, true⟩).messages
        = (⟨[⟨['u'], ['u', 's', 'e', 'r'], ['h', 'i'], false⟩], [], true, true⟩ :
            ChatState).messages
  ∧ (handleWebSocketMessage [] (.textMessageContent (some ['m', 'X']) (some ['x']))
        ⟨[⟨['u'], ['u', 's', 'e', 'r'], ['h', 'i'], false⟩], [], true, true⟩).isTyping
        = (⟨[⟨['u'], ['u', 's', 'e', 'r'], ['h', 'i'], false⟩], [], true, true⟩ :
            ChatState).isTyping
  ∧ (handleWebSocketMessage [] (.textMessageContent (some ['m', 'X']) (some ['x']))
        ⟨[⟨['u'], ['u', 's', 'e', 'r'], ['h', 'i'], false⟩], [], true, true⟩).currentStreaming
        = (⟨[⟨['u'], ['u', 's', 'e', 'r'], ['h', 'i'], false⟩], [], true, true⟩ :
            ChatState).currentStreaming ++ ['x'] :=
  C6_unmatched_content_behavior [] ['m', 'X'] ['x'] _ (by decide)

/-- C10: a TEXT_MESSAGE_CONTENT event whose delta field is absent is
treated exactly as an explicit empty-string delta: the streaming
accumulator is unchanged and no error branch is taken (the typing flag
is untouched). -/
theorem C10_absent_delta_empty (now : List Char) (mid : Option (List Char)) (s : ChatState) :
    handleWebSocketMessage now (.textMessageContent mid none) s
        = handleWebSocketMessage now (.textMessageContent mid (some [])) s
  ∧ (handleWebSocketMessage now (.textMessageContent mid none) s).currentStreaming
        = s.currentStreaming
  ∧ (handleWebSocketMessage now (.textMessageContent mid none) s).isTyping = s.isTyping := by
  refine ⟨rfl, ?_, rfl⟩
  simp [handleWebSocketMessage, jsOr]

/-- C7: `add` with a terminal string key on an object parent sets or
overwrites that key; `add` with terminal `-` on an array parent appends
the value; in particular the spec's two example deltas evaluate as
stated: adding `/user_name = "Alice"` to the empty object, and
appending `"math"` to `/topics` of an object holding
`topics = ["weather"]`. -/
theorem C7_add_semantics :
    (∀ (k : List Char) (v : JsonVal) (fs : List (List Char × JsonVal)),
        applyFinalKey .add k v (.obj fs) = .obj (setField k v fs))
  ∧ (∀ (v : JsonVal) (xs : List JsonVal),
        applyFinalKey .add ['-'] v (.arr xs) = .arr (xs ++ [v]))
  ∧ applyPatchOps
      [.obj [(['o', 'p'], .str ['a', 'd', 'd']),
             (['p', 'a', 't', 'h'],
               .str ['/', 'u', 's', 'e', 'r', '_', 'n', 'a', 'm', 'e']),
             (['v', 'a', 'l', 'u', 'e'], .str ['A', 'l', 'i', 'c', 'e'])]]
      (.obj [])
      = some (.obj [(['u', 's', 'e', 'r', '_', 'n', 'a', 'm', 'e'],
          .str ['A', 'l', 'i', 'c', 'e'])])
  ∧ applyPatchOps
      [.obj [(['o', 'p'], .str ['a', 'd', 'd']),
             (['p', 'a', 't', 'h'], .str ['/', 't', 'o', 'p', 'i', 'c', 's', '/', '-']),
             (['v', 'a', 'l', 'u', 'e'], .str ['m', 'a', 't', 'h'])]]
      (.obj [(['t', 'o', 'p', 'i', 'c', 's'],
        .arr [.str ['w', 'e', 'a', 't', 'h', 'e', 'r']])])
      = some (.obj [(['t', 'o', 'p', 'i', 'c', 's'],
          .arr [.str ['w', 'e', 'a', 't', 'h', 'e', 'r'], .str ['m', 'a', 't', 'h']])]) := by
  refine ⟨?_, ?_, rfl, rfl⟩
  · intro k v fs
    rfl
  · intro v xs
    rfl

/-- Counterexample to C8 as stated: the transport closing cleanly
(close code 1000) before any terminal RunFinished/RunError event
completes the run normally instead of terminating it as errored. -/
theorem C8_counterexample :
    observedTerminalFrame [] = false
  ∧ wsAgentRunOutcome [] 1000 = .completed
  ∧ wsAgentRunOutcome [] 1000 ≠ .errored := by
  refine ⟨rfl, rfl, ?_⟩
  intro h
  rw [show wsAgentRunOutcome [] 1000 = .completed from rfl] at h
  exact absurd h (by decide)

/-- C8 amended: the session outcome depends only on the close code,
never on whether a terminal event was observed: an abnormal close code
errors the run; a clean close (1000) completes it even when no
terminal event was seen; and the client close handler only clears the
typing and connection flags, leaving the message list and the open
streaming accumulator untouched (discarded-state is not finalized, but
it is not cleared either). -/
theorem C8_close_behavior (frames : List (List Char)) (code : Nat) (s : ChatState) :
    (code ≠ 1000 → wsAgentRunOutcome frames code = .errored)
  ∧ ((∀ f ∈ frames, (jsonParse f).isSome) → observedTerminalFrame frames = false →
        wsAgentRunOutcome frames code = (if code = 1000 then .completed else .errored))
  ∧ (handleWsClose s).messages = s.messages
  ∧ (handleWsClose s).currentStreaming = s.currentStreaming
  ∧ (handleWsClose s).isTyping = false := by
  refine ⟨?_, ?_, rfl, rfl, rfl⟩
  · intro hcode
    unfold wsAgentRunOutcome
    rw [if_neg hcode]
    split <;> rfl
  · intro hparse _
    unfold wsAgentRunOutcome
    rw [if_pos]
    rw [List.all_eq_true]
    intro f hf
    simpa using hparse f hf

/-- Witness for the amended C8 at a concrete abnormal close. -/
theorem C8_close_behavior_witness :
    ((1006 : Nat) ≠ 1000 → wsAgentRunOutcome [] 1006 = .errored)
  ∧ ((∀ f ∈ ([] : List (List Char)), (jsonParse f).isSome) →
        observedTerminalFrame [] = false →
        wsAgentRunOutcome [] 1006 = (if (1006 : Nat) = 1000 then .completed else .errored))
  ∧ (handleWsClose ⟨[], ['x'], true, true⟩).messages
        = (⟨[], ['x'], true, true⟩ : ChatState).messages
  ∧ (handleWsClose ⟨[], ['x'], true, true⟩).currentStreaming
        = (⟨[], ['x'], true, true⟩ : ChatState).currentStreaming
  ∧ (handleWsClose ⟨[], ['x'], true, true⟩).isTyping = false :=
  C8_close_behavior [] 1006 ⟨[], ['x'], true, true⟩

theorem escapeChar_safe (c : Char) (h : jsonSafeChar c = true) : escapeChar c = [c] := by
  have hh : ¬(c = '"') ∧ ¬(c = '\\') ∧ ¬(c.toNat < 32) := by
    simpa [jsonSafeChar, and_assoc] using h
  unfold escapeChar
  rw [if_neg hh.1, if_neg hh.2.1, if_neg hh.2.2]

theorem escapeChars_safe (s : List Char) (h : ∀ c ∈ s, jsonSafeChar c = true) :
    escapeChars s = s := by
  induction s with
  | nil => rfl
  | cons c t ih =>
    simp only [escapeChars, escapeChar_safe c (h c (by simp)),
      ih (fun x hx => h x (by simp [hx]))]
    rfl

theorem tmcPayload_eq_compact (mid : List Char) (c : Char)
    (hmid : ∀ x ∈ mid, jsonSafeChar x = true) (hc : jsonSafeChar c = true) :
    tmcPayload mid c = compactJson (contentEventJson mid c) := by
  have h1 : escapeChars mid = mid := escapeChars_safe mid hmid
  have h2 : escapeChars [c] = [c] := by
    simp only [escapeChars, escapeChar_safe c hc]
    rfl
  rw [show compactJson (contentEventJson mid c) =
    '{' :: fieldJson (['t', 'y', 'p', 'e'],
        .str ['T', 'E', 'X', 'T', '_', 'M', 'E', 'S', 'S', 'A', 'G', 'E', '_',
          'C', 'O', 'N', 'T', 'E', 'N', 'T']) ++
      objTailJson [(['m', 'e', 's', 's', 'a', 'g', 'e', '_', 'i', 'd'], .str mid),
        (['d', 'e', 'l', 't', 'a'], .str [c])]
    from by simp [contentEventJson, compactJson]]
  rw [show objTailJson [(['m', 'e', 's', 's', 'a', 'g', 'e', '_', 'i', 'd'], .str mid),
        (['d', 'e', 'l', 't', 'a'], .str [c])] =
      ',' :: ' ' :: fieldJson (['m', 'e', 's', 's', 'a', 'g', 'e', '_', 'i', 'd'], .str mid) ++
        (',' :: ' ' :: fieldJson (['d', 'e', 'l', 't', 'a'], .str [c]) ++ ['}'])
    from by simp [objTailJson]]
  rw [show fieldJson (['t', 'y', 'p', 'e'],
      .str ['T', 'E', 'X', 'T', '_', 'M', 'E', 'S', 'S', 'A', 'G', 'E', '_',
        'C', 'O', 'N', 'T', 'E', 'N', 'T']) =
    '"' :: escapeChars ['t', 'y', 'p', 'e'] ++ ['"', ':', ' '] ++
      ('"' :: escapeChars ['T', 'E', 'X', 'T', '_', 'M', 'E', 'S', 'S', 'A', 'G', 'E', '_',
        'C', 'O', 'N', 'T', 'E', 'N', 'T'] ++ ['"'])
    from by simp [fieldJson, compactJson]]
  rw [show fieldJson (['m', 'e', 's', 's', 'a', 'g', 'e', '_', 'i', 'd'], .str mid) =
    '"' :: escapeChars ['m', 'e', 's', 's', 'a', 'g', 'e', '_', 'i', 'd'] ++ ['"', ':', ' '] ++
      ('"' :: escapeChars mid ++ ['"'])
    from by simp [fieldJson, compactJson]]
  rw [show fieldJson (['d', 'e', 'l', 't', 'a'], .str [c]) =
    '"' :: escapeChars ['d', 'e', 'l', 't', 'a'] ++ ['"', ':', ' '] ++
      ('"' :: escapeChars [c] ++ ['"'])
    from by simp [fieldJson, compactJson]]
  rw [h1, h2]
  rw [show escapeChars ['t', 'y', 'p', 'e'] = ['t', 'y', 'p', 'e'] from rfl]
  rw [show escapeChars ['T', 'E', 'X', 'T', '_', 'M', 'E', 'S', 'S', 'A', 'G', 'E', '_',
      'C', 'O', 'N', 'T', 'E', 'N', 'T'] =
    ['T', 'E', 'X', 'T', '_', 'M', 'E', 'S', 'S', 'A', 'G', 'E', '_',
      'C', 'O', 'N', 'T', 'E', 'N', 'T'] from rfl]
  rw [show escapeChars ['m', 'e', 's', 's', 'a', 'g', 'e', '_', 'i', 'd'] =
    ['m', 'e', 's', 's', 'a', 'g', 'e', '_', 'i', 'd'] from rfl]
  rw [show escapeChars ['d', 'e', 'l', 't', 'a'] = ['d', 'e', 'l', 't', 'a'] from rfl]
  simp [tmcPayload, tmcPre, tmcDeltaSep, List.cons_append, List.append_assoc]

/-- C9: for response text whose characters need no JSON string
escaping, `handleDirectRequest` emits exactly one TEXT_MESSAGE_CONTENT
frame per character — bracketed by exactly one
TEXT_MESSAGE_START/TEXT_MESSAGE_END pair inside one
RUN_STARTED/RUN_FINISHED pair — each frame built by verbatim
interpolation of the character with no JSON escaping applied, and each
content payload parses as JSON to an event whose delta is exactly the
corresponding single character. -/
theorem C9_direct_request_frames (text mid tid rid : List Char)
    (htext : ∀ c ∈ text, jsonSafeChar c = true)
    (hmid : ∀ x ∈ mid, jsonSafeChar x = true) :
    handleDirectRequestFrames text tid rid mid =
      [runStartedFrame tid rid, textMessageStartFrame mid] ++
        text.map (tmcFrame mid) ++
        [textMessageEndFrame mid, runFinishedFrame tid rid]
  ∧ (handleDirectRequestFrames text tid rid mid).length = text.length + 4
  ∧ (∀ c, tmcFrame mid c = dataTag ++ tmcPayload mid c ++ ['\n', '\n'])
  ∧ (∀ c, tmcPayload mid c = '{' :: tmcPre ++ mid ++ tmcDeltaSep ++ [c] ++ ['"', '}'])
  ∧ (∀ c ∈ text, jsonParse (tmcPayload mid c) = some (contentEventJson mid c)) := by
  refine ⟨rfl, ?_, fun c => rfl, fun c => rfl, ?_⟩
  · simp only [handleDirectRequestFrames, List.length_append, List.length_map,
      List.length_cons, List.length_nil]
    omega
  · intro c hcin
    rw [tmcPayload_eq_compact mid c hmid (htext c hcin)]
    exact jsonParse_compactJson _

/-- Witness for C9 at the concrete response text `Hi`. -/
theorem C9_direct_request_frames_witness :
    handleDirectRequestFrames ['H', 'i'] ['t', '1'] ['r', '1'] ['m', 's', 'g', '-', '1'] =
      [runStartedFrame ['t', '1'] ['r', '1'], textMessageStartFrame ['m', 's', 'g', '-', '1']] ++
        ['H', 'i'].map (tmcFrame ['m', 's', 'g', '-', '1']) ++
        [textMessageEndFrame ['m', 's', 'g', '-', '1'], runFinishedFrame ['t', '1'] ['r', '1']]
  ∧ (handleDirectRequestFrames ['H', 'i'] ['t', '1'] ['r', '1']
      ['m', 's', 'g', '-', '1']).length = (['H', 'i'] : List Char).length + 4
  ∧ (∀ c, tmcFrame ['m', 's', 'g', '-', '1'] c =
      dataTag ++ tmcPayload ['m', 's', 'g', '-', '1'] c ++ ['\n', '\n'])
  ∧ (∀ c, tmcPayload ['m', 's', 'g', '-', '1'] c =
      '{' :: tmcPre ++ ['m', 's', 'g', '-', '1'] ++ tmcDeltaSep ++ [c] ++ ['"', '}'])
  ∧ (∀ c ∈ (['H', 'i'] : List Char), jsonParse (tmcPayload ['m', 's', 'g', '-', '1'] c) =
      some (contentEventJson ['m', 's', 'g', '-', '1'] c)) :=
  C9_direct_request_frames ['H', 'i'] ['m', 's', 'g', '-', '1'] ['t', '1'] ['r', '1']
    (by decide) (by decide)
